import Mathlib

/-!
# exFAT reader (`exFAT_OS_Read_Operate.c`): shallow embedding and checked properties

The C program keeps the volume geometry in global variables, moves one shared
file cursor with `lseek` and fills local variables with `read`.  The embedding
below makes all of that explicit:

* a volume image is a size together with a byte function, so that images larger
  than 4 GiB can be written down;
* C integers are `Int`s, and every conversion to `uint32_t` or `int` that the C
  expression performs is an explicit `wrapU32` / `wrapI32`;
* a `read` that cannot deliver all requested bytes leaves (part of) its target
  variable untouched, i.e. indeterminate; the embedding returns `none` there.
-/

namespace ExFAT

/-! ## Machine integers -/

/-- Conversion of an integer value to `uint32_t`. -/
def wrapU32 (x : Int) : Int := x % 4294967296

/-- Conversion of an integer value to (two's complement) `int`. -/
def wrapI32 (x : Int) : Int := (x + 2147483648) % 4294967296 - 2147483648

/-- Conversion of an integer value to `uint64_t`. -/
def wrapU64 (x : Int) : Int := x % 18446744073709551616

/-! ## Volume image and geometry -/

/-- A volume image: `size` bytes, byte `p` being `byte p % 256`. -/
structure Image where
  size : Int
  byte : Int → Int

/-- One byte delivered by `read` at file offset `pos`; `none` at or past the end. -/
def Image.read8 (img : Image) (pos : Int) : Option Int :=
  if 0 ≤ pos ∧ pos < img.size then some (img.byte pos % 256) else none

/-- Little-endian value of the `n` bytes at `pos`, as `read(fd, &var, n)` stores them
on a little-endian host; `none` when the read is short. -/
def Image.readLE (img : Image) (pos : Int) : Nat → Option Int
  | 0 => some 0
  | n + 1 =>
    match img.read8 pos, img.readLE (pos + 1) n with
    | some b, some r => some (b + 256 * r)
    | _, _ => none

/-- The `n` bytes at `pos` as a list, as `read(fd, buf, n)` stores them; `none` when
the read is short. -/
def Image.readBytes (img : Image) (pos : Int) : Nat → Option (List Int)
  | 0 => some []
  | n + 1 =>
    match img.read8 pos, img.readBytes (pos + 1) n with
    | some b, some r => some (b :: r)
    | _, _ => none

/-- The global geometry variables of the program (source lines 38-45):
`clstHeapOffset`, `fatOffset`, `clusterCount` are `uint32_t`, the other two `int`. -/
structure Geometry where
  clstHeapOffset : Int
  fatOffset : Int
  clusterCount : Int
  bytesPerSector : Int
  sectorsPerCluster : Int
  deriving DecidableEq

/-- The values lie in the ranges of their C types. -/
def Geometry.WellTyped (g : Geometry) : Prop :=
  (0 ≤ g.clstHeapOffset ∧ g.clstHeapOffset < 4294967296) ∧
  (0 ≤ g.fatOffset ∧ g.fatOffset < 4294967296) ∧
  (0 ≤ g.clusterCount ∧ g.clusterCount < 4294967296) ∧
  (-2147483648 ≤ g.bytesPerSector ∧ g.bytesPerSector < 2147483648) ∧
  (-2147483648 ≤ g.sectorsPerCluster ∧ g.sectorsPerCluster < 2147483648)

/-- The `int` expression `bytesPerSector * sectorsPerCluster` used throughout. -/
def bytesPerCluster (g : Geometry) : Int :=
  wrapI32 (g.bytesPerSector * g.sectorsPerCluster)

/-! ## Cluster addressing and the FAT -/

/-- Source lines 115-119.  `cluster - 2` and the product with `sectorsPerCluster`
are `int` arithmetic; adding the `uint32_t` `clstHeapOffset` and multiplying by
`bytesPerSector` is `unsigned int` arithmetic; only the final value is widened to
`long`. -/
def findOffsetToCluster (g : Geometry) (cluster : Int) : Int :=
  wrapU32 (wrapU32 (g.clstHeapOffset +
      wrapU32 (wrapI32 (wrapI32 (cluster - 2) * g.sectorsPerCluster))) *
    wrapU32 g.bytesPerSector)

/-- File offset reached by the two `lseek`s of `nextCluster` (source lines 178-179):
both products are `unsigned int` arithmetic. -/
def fatEntryPos (g : Geometry) (currCluster : Int) : Int :=
  wrapU32 (g.fatOffset * wrapU32 g.bytesPerSector) + wrapU32 (4 * currCluster)

/-- Source lines 174-183; `currCluster` is the `uint32_t` argument. -/
def nextCluster (g : Geometry) (img : Image) (currCluster : Int) : Option Int :=
  img.readLE (fatEntryPos g currCluster) 4

/-! ## Geometry readers -/

/-- Source lines 144-162: the two exponent bytes at offsets 108 and 109 and the
shifts `1 << e` in `int`.  A shift by 31 or more is undefined for `int`; the result
is then `none`.  Returns `(bytesPerSector, sectorsPerCluster)`. -/
def sectorsPerClus (img : Image) : Option (Int × Int) :=
  match img.read8 108, img.read8 109 with
  | some powerOfTwoSecBytes, some powerOfTwoClst =>
    if powerOfTwoSecBytes < 31 ∧ powerOfTwoClst < 31 then
      some (2 ^ powerOfTwoSecBytes.toNat, 2 ^ powerOfTwoClst.toNat)
    else none
  | _, _ => none

/-- Source lines 128-133: returns `(clstHeapOffset, clusterCount)`. -/
def clusterHeapOffset (img : Image) : Option (Int × Int) :=
  match img.readLE 88 4, img.readLE 92 4 with
  | some h, some n => some (h, n)
  | _, _ => none

/-- Source lines 165-169. -/
def getFatOffset (img : Image) : Option Int :=
  img.readLE 80 4

/-- The three reader calls that open `listRecurse` and `get`
(source lines 369-371 and 558-560). -/
def readGeometry (img : Image) : Option Geometry :=
  match sectorsPerClus img, clusterHeapOffset img, getFatOffset img with
  | some (bps, spc), some (h, n), some f =>
    some { clstHeapOffset := h, fatOffset := f, clusterCount := n,
           bytesPerSector := bps, sectorsPerCluster := spc }
  | _, _, _ => none

/-! ## Narrowing of names -/

/-- The `for` loop of `unicode2ascii` (source lines 88-91): `n` iterations left,
index `i`, destination `ascii`.  Reading behind the end of the source array has
no defined value (`none`). -/
def narrowLoop (unicode_string : List Int) : Nat → Nat → List Int → Option (List Int)
  | 0, _, ascii => some ascii
  | n + 1, i, ascii =>
    match unicode_string[i]? with
    | none => none
    | some u => narrowLoop unicode_string n (i + 1) (ascii.set i (u % 256))

/-- Source lines 72-98.  `length` is the `uint8_t` argument; `assert(length > 0)`
aborts the program (`none`).  The result is the `calloc`ed array of `length + 1`
bytes, the last one being the terminator. -/
def unicode2ascii (unicode_string : List Int) (length : Int) : Option (List Int) :=
  if 0 < length then
    match narrowLoop unicode_string length.toNat 0 (List.replicate (length.toNat + 1) 0) with
    | some ascii => some (ascii.set length.toNat 0)
    | none => none
  else none

/-- What `printf("%s")` and `strcmp` see of a `char` array: the bytes before the
first zero byte. -/
def cString (bytes : List Int) : List Int :=
  bytes.takeWhile (fun b => b != 0)

/-- The bytes of an ASCII string literal. -/
def ascii (s : String) : List Int :=
  s.toList.map (fun ch => (ch.toNat : Int))

/-! ## Directory entry sets -/

/-- The shared file cursor together with the two local variables that track it in
`listRecurse` and `get`.  The `int` counter `bytesReadInCluster` is kept exact: it
could overflow only after 2 GiB have been consumed without a change of cluster. -/
structure Cursor where
  pos : Int
  currCluster : Int
  bytesReadInCluster : Int
  deriving DecidableEq

/-- The block "go to next cluster" that recurs in the source (lines 408-413,
427-432, 454-459, 495-500, ...): when the byte counter equals the cluster size,
follow the FAT, seek to the start of that cluster and reset the counter. -/
def goToNextCluster (g : Geometry) (img : Image) (c : Cursor) : Option Cursor :=
  if c.bytesReadInCluster = bytesPerCluster g then
    match nextCluster g img (wrapU32 c.currCluster) with
    | some next =>
      some { pos := findOffsetToCluster g (wrapI32 next), currCluster := wrapI32 next,
             bytesReadInCluster := 0 }
    | none => none
  else some c

/-- The cursor after one 32-byte slot has been consumed (read or skipped) and the
block "go to next cluster" that follows has run. -/
def advance (g : Geometry) (img : Image) (c : Cursor) : Option Cursor :=
  goToNextCluster g img
    { pos := c.pos + 32, currCluster := c.currCluster,
      bytesReadInCluster := c.bytesReadInCluster + 32 }

/-- `n` little-endian 16-bit code units at `pos`, as `read(fd, &unicodeString[k], 2 * n)`
stores them; `none` when the read is short. -/
def Image.readUnits (img : Image) (pos : Int) : Nat → Option (List Int)
  | 0 => some []
  | n + 1 =>
    match img.readLE pos 2, img.readUnits (pos + 2) n with
    | some u, some r => some (u :: r)
    | _, _ => none

/-- Store `units` into the name array from index `off` on.  The C array
`unicodeString` has 255 elements and the source never checks the index; a store
behind the end is kept by letting the list grow, so that it stays visible.  Such a
store has no defined behaviour in C: once the list is longer than 255, the model
tells which stores were made, and nothing about the other variables of the C
program from then on. -/
def writeUnits (buf : List Int) (off : Nat) (units : List Int) : List Int :=
  (buf ++ List.replicate (off - buf.length) 0).take off ++ units ++ buf.drop (off + units.length)

/-- The fields that `listRecurse` and `get` take from one entry set.  `length` is
read by `get` only (it is `0` for `listRecurse`, which has no such variable). -/
structure EntrySet where
  secondaryCount : Int
  directory : Bool
  nameLength : Int
  nextDirCluster : Int
  length : Int
  deriving DecidableEq

/-- The loop over the further name slots (source lines 445-460 and 642-657):
`n` iterations left, loop variable `i`. -/
def nameLoop (g : Geometry) (img : Image) :
    Nat → Nat → Cursor → List Int → Option (Cursor × List Int)
  | 0, _, c, buf => some (c, buf)
  | n + 1, i, c, buf =>
    match img.readUnits (c.pos + 2) 15 with
    | none => none
    | some units =>
      match advance g img c with
      | none => none
      | some c2 => nameLoop g img n (i + 1) c2 (writeUnits buf (15 * (i + 1)) units)

/-- The body of the branch `currEntryType == FILE_TYPE_ENTRY` up to the end of the
name loop (source lines 382-460 for `listRecurse`, 579-657 for `get`, chosen by
`isGet`; the two differ only in `get` reading the 8 bytes of `length` where
`listRecurse` seeks over them).  `c` is the cursor before the entry-type byte was
read, `unicodeString` the current content of the name array. -/
def readEntrySet (isGet : Bool) (g : Geometry) (img : Image) (c : Cursor)
    (unicodeString : List Int) : Option (EntrySet × Cursor × List Int) :=
  match img.read8 (c.pos + 1), img.readLE (c.pos + 4) 2 with
  | some secondaryCount, some fileAttributes =>
    let directory : Bool := decide (fileAttributes.toNat &&& 16 = 16)
    -- skip past the rest of the primary slot
    match advance g img c with
    | none => none
    | some c1 =>
      -- stream extension
      match img.read8 (c1.pos + 3), img.readLE (c1.pos + 20) 4,
          (if isGet then img.readLE (c1.pos + 24) 8 else some 0) with
      | some nameLength, some nextDirCluster, some length =>
        match advance g img c1 with
        | none => none
        | some c2 =>
          -- first name slot, addressed absolutely (lines 434-442)
          match img.readUnits
              (2 + findOffsetToCluster g c2.currCluster + c2.bytesReadInCluster) 15 with
          | none => none
          | some units =>
            let c3 : Cursor :=
              { pos := findOffsetToCluster g c2.currCluster + (c2.bytesReadInCluster + 32),
                currCluster := c2.currCluster,
                bytesReadInCluster := c2.bytesReadInCluster + 32 }
            match nameLoop g img (secondaryCount - 2).toNat 0 c3
                (writeUnits unicodeString 0 units) with
            | none => none
            | some (c4, buf) =>
              some ({ secondaryCount := secondaryCount, directory := directory,
                      nameLength := nameLength, nextDirCluster := nextDirCluster,
                      length := length }, c4, buf)
      | _, _, _ => none
  | _, _ => none

/-! ## `list` -/

/-- The `while` loop of `listRecurse` (source lines 375-501), with the recursive
call at line 480 unfolded into the same loop started on the sub-directory.  The
recursive call re-reads the geometry from the same image and starts with a fresh
name array, whose indeterminate content is `junk`; when it returns, the absolute
`lseek` of line 483 restores the cursor.  Once `done` is set the remaining
statements of the iteration only touch local state of the returning call.
`fuel` bounds the number of loop iterations, `none` meaning exhausted fuel, a short
read or the failing `assert`.  The result is the text written to standard output. -/
def listLoop (g : Geometry) (img : Image) (junk : List Int) :
    Nat → Cursor → List Int → Nat → Option (List Int)
  | 0, _, _, _ => none
  | fuel + 1, c, unicodeString, levels =>
    match img.read8 c.pos with
    | none => none
    | some currEntryType =>
      if currEntryType = 133 then
        match readEntrySet false g img c unicodeString with
        | none => none
        | some (e, c4, buf) =>
          match unicode2ascii buf e.nameLength with
          | none => none
          | some asciiString =>
            let line := List.replicate levels 45 ++
              (if e.directory then ascii "Directory: " else ascii "File: ") ++
              cString asciiString ++ [10]
            let sub : Option (List Int) :=
              if e.directory then
                listLoop g img junk fuel
                  { pos := findOffsetToCluster g (wrapI32 e.nextDirCluster),
                    currCluster := wrapI32 e.nextDirCluster, bytesReadInCluster := 0 }
                  junk (levels + 1)
              else some []
            match sub with
            | none => none
            | some subText =>
              match goToNextCluster g img
                  { pos := findOffsetToCluster g c4.currCluster + c4.bytesReadInCluster,
                    currCluster := c4.currCluster,
                    bytesReadInCluster := c4.bytesReadInCluster } with
              | none => none
              | some c5 =>
                match listLoop g img junk fuel c5 buf levels with
                | none => none
                | some rest => some (line ++ subText ++ rest)
      else if currEntryType = 0 then some []
      else
        match advance g img c with
        | none => none
        | some c1 => listLoop g img junk fuel c1 unicodeString levels

/-- Source lines 349-502: `firstCluster` and `levels` are the `int` arguments. -/
def listRecurse (img : Image) (junk : List Int) (fuel : Nat) (firstCluster : Int)
    (levels : Nat) : Option (List Int) :=
  match readGeometry img with
  | none => none
  | some g =>
    listLoop g img junk fuel
      { pos := findOffsetToCluster g firstCluster, currCluster := firstCluster,
        bytesReadInCluster := 0 }
      junk levels

/-! ## `get`: copying a file -/

/-- The `while` loop of `getFile` (source lines 518-528).  `cur` is `currCluster`
together with the cursor position, `none` once `nextCluster` could not deliver a
value; `out` collects the bytes written.  Every iteration reads and writes
`bytesPerSector * sectorsPerCluster` bytes (a positive `int` in every use below). -/
def getFileLoop (g : Geometry) (img : Image) (length : Int) :
    Nat → Option (Int × Int) → Int → List Int → Option (List Int)
  | 0, _, bytesRead, out => if bytesRead = length then some out else none
  | fuel + 1, cur, bytesRead, out =>
    if bytesRead = length then some out
    else
      match cur with
      | none => none
      | some (currCluster, pos) =>
        let bytesToRead : Int :=
          if wrapU64 (length - bytesRead) < wrapU64 (bytesPerCluster g) then
            wrapU64 (length - bytesRead)
          else wrapU64 (bytesPerCluster g)
        match img.readBytes pos (bytesPerCluster g).toNat with
        | none => none
        | some cluster =>
          let next : Option (Int × Int) :=
            match nextCluster g img (wrapU32 currCluster) with
            | some n => some (wrapI32 n, findOffsetToCluster g (wrapI32 n))
            | none => none
          getFileLoop g img length fuel next (wrapU64 (bytesRead + bytesToRead))
            (out ++ cluster)

/-- Source lines 511-529: the content of the output file, `startCluster` being the
`int` and `length` the `uint64_t` argument. -/
def getFile (g : Geometry) (img : Image) (fuel : Nat) (startCluster : Int) (length : Int) :
    Option (List Int) :=
  getFileLoop g img length fuel (some (startCluster, findOffsetToCluster g startCluster)) 0 []

/-! ## `info`: free space -/

/-- The loop of `countOffBits` (source lines 240-244): mask `x`, running `count`. -/
def countOffBitsLoop (byte : Nat) : Nat → Nat → Int → Int
  | 0, _, count => count
  | fuel + 1, x, count =>
    if x ≤ 255 then
      countOffBitsLoop byte fuel (x <<< 1) (if x &&& byte = 0 then count + 1 else count)
    else count

/-- Source lines 236-246; the mask takes the values 1, 2, ..., 128, then 256 ends
the loop. -/
def countOffBits (byte : Int) : Int :=
  countOffBitsLoop byte.toNat 9 1 0

/-- The `for` loop of `getEmptys` (source lines 262-272): `n` iterations left.
`bytesReadInCluster` is never changed by the loop, so line 266 compares `0` with
the cluster size. -/
def getEmptysLoop (g : Geometry) (img : Image) : Nat → Int → Int → Int → Option Int
  | 0, _, _, emptys => some emptys
  | n + 1, pos, currCluster, emptys =>
    match img.read8 pos with
    | none => none
    | some currByte =>
      if 0 = bytesPerCluster g then
        match nextCluster g img currCluster with
        | none => none
        | some next =>
          getEmptysLoop g img n (findOffsetToCluster g (wrapI32 next)) next
            (emptys + countOffBits currByte)
      else getEmptysLoop g img n (pos + 1) currCluster (emptys + countOffBits currByte)

/-- Conversion of an integer value to `long` (64 bit, two's complement). -/
def wrapI64 (x : Int) : Int :=
  (x + 9223372036854775808) % 18446744073709551616 - 9223372036854775808

/-- Source lines 255-275: the value stored in the `int` `freeSpaceKB`.  `pos0` is
the cursor position on entry, kept when `lseek` rejects a negative `offset`. -/
def getEmptys (g : Geometry) (img : Image) (pos0 : Int) (offset : Int) (currCluster : Int) :
    Option Int :=
  match getEmptysLoop g img (wrapI32 (g.clusterCount / 8)).toNat
      (if 0 ≤ offset then offset else pos0) currCluster 0 with
  | none => none
  | some emptys =>
    let freeSpace := wrapI64 (wrapI64 (emptys * g.sectorsPerCluster) * g.bytesPerSector)
    some (wrapI32 (Int.tdiv freeSpace 1024))

/-- Total little-endian value, used to state what a successful `readLE` returns. -/
def leValue (img : Image) (pos : Int) : Nat → Int
  | 0 => 0
  | n + 1 => img.byte pos % 256 + 256 * leValue img (pos + 1) n

/-! ## Fixtures -/

/-- Byte function of an image given by chunks `(offset, bytes)`; every other byte
is zero. -/
def chunkByte : List (Int × List Int) → Int → Int
  | [], _ => 0
  | (off, bytes) :: rest, p =>
    if off ≤ p ∧ p < off + bytes.length then bytes.getD (p - off).toNat 0
    else chunkByte rest p

/-- An image of `size` bytes holding the given chunks. -/
def mkImage (size : Int) (chunks : List (Int × List Int)) : Image :=
  { size := size, byte := chunkByte chunks }

/-- The four bytes of a little-endian 32-bit value. -/
def le32 (v : Int) : List Int :=
  [v % 256, v / 256 % 256, v / 65536 % 256, v / 16777216 % 256]

/-- The geometry of an 8 GiB volume with 4 KiB clusters. -/
def bigVolume : Geometry :=
  { clstHeapOffset := 2048, fatOffset := 128, clusterCount := 2000000,
    bytesPerSector := 512, sectorsPerCluster := 8 }

/-- The geometry of a 1 TiB volume with 512-byte clusters, the FAT starting at
byte 65536. -/
def hugeVolume : Geometry :=
  { clstHeapOffset := 16777344, fatOffset := 128, clusterCount := 2130706432,
    bytesPerSector := 512, sectorsPerCluster := 1 }

/-- A 1 TiB image whose only non-zero byte is the low byte of FAT entry `2 ^ 30`,
at offset `65536 + 4 * 2 ^ 30`. -/
def hugeImage : Image :=
  { size := 1099511627776, byte := fun p => if p = 4295032832 then 7 else 0 }

/-- The bytes of a primary (0x85) slot with the given secondary count and
attributes; the bytes not listed are zero. -/
def primarySlot (secondaryCount attributes : Int) : List Int :=
  [133, secondaryCount, 0, 0, attributes % 256, attributes / 256]

/-- The 32 bytes of a stream-extension (0xC0) slot. -/
def streamSlot (nameLength firstCluster dataLength : Int) : List Int :=
  [192, 0, 0, nameLength] ++ List.replicate 16 0 ++ le32 firstCluster ++
    le32 dataLength ++ le32 0

/-- The bytes of a name (0xC1) slot holding the characters of `s`. -/
def nameSlot (s : String) : List Int :=
  [193, 0] ++ (ascii s).flatMap (fun b => [b, 0])

/-- Boot-sector fields of the small example volumes: 512-byte sectors, one sector
per cluster, FAT in sector 1, cluster heap from sector 2 on, 16 clusters, root
directory in cluster 2. -/
def bootFields : List (Int × List Int) :=
  [(80, le32 1), (88, le32 2 ++ le32 16), (96, le32 2), (108, [9, 0])]

/-- The geometry stored in `bootFields`. -/
def smallVolume : Geometry :=
  { clstHeapOffset := 2, fatOffset := 1, clusterCount := 16,
    bytesPerSector := 512, sectorsPerCluster := 1 }

/-- The volume of the end-to-end scenario: the root directory (cluster 2) holds the
volume label, the allocation-bitmap entry and the directory `docs` (cluster 3),
which holds the file `note.txt` (cluster 4, 10 bytes); cluster 5 is the bitmap. -/
def docsImage : Image :=
  mkImage 4096 (bootFields ++
    [(512 + 8, le32 4294967295 ++ le32 4294967295 ++ le32 4294967295 ++ le32 4294967295),
     (1024, [131, 3, 65, 0, 66, 0, 67, 0]),
     (1056, [129, 0] ++ List.replicate 18 0 ++ le32 5),
     (1088, primarySlot 2 16), (1120, streamSlot 4 3 0), (1152, nameSlot "docs"),
     (1536, primarySlot 2 32), (1568, streamSlot 8 4 10), (1600, nameSlot "note.txt"),
     (2048, ascii "hello!!!!\n"),
     (2560, [15, 0])])

/-- Number of zero bits among the eight bits of a byte. -/
def zeroBits (b : Int) : Int :=
  ((List.range 8).filter (fun k => !(b.toNat.testBit k))).length

/-- Number of zero bits among the `n` image bytes from `pos` on. -/
def zeroBitsIn (img : Image) (pos : Int) : Nat → Int
  | 0 => 0
  | n + 1 => zeroBits (img.byte pos % 256) + zeroBitsIn img (pos + 1) n

/-- The geometry of a 2 TiB volume: 65536 clusters of 32 MiB. -/
def wideVolume : Geometry :=
  { clstHeapOffset := 131072, fatOffset := 128, clusterCount := 65536,
    bytesPerSector := 512, sectorsPerCluster := 65536 }

/-- A 2 TiB image of zero bytes: in particular every bit of the bitmap is clear. -/
def blankImage : Image :=
  { size := 2199023255552, byte := fun _ => 0 }

/-! ## Reference description of directory content -/

/-- The cursor agrees with its bookkeeping: the file offset is the start of the
current cluster plus the count of bytes consumed in it. -/
def Cursor.Ok (g : Geometry) (c : Cursor) : Prop :=
  c.pos = findOffsetToCluster g c.currCluster + c.bytesReadInCluster

/-- The `n` little-endian 16-bit code units stored from offset `p` on. -/
def unitsAt (img : Image) (p : Int) : Nat → List Int
  | 0 => []
  | n + 1 => leValue img p 2 :: unitsAt img (p + 2) n

/-- The 15 code units stored at bytes 2..31 of the 32-byte slot at offset `q`. -/
def slotUnits (img : Image) (q : Int) : List Int :=
  unitsAt img (q + 2) 15

/-- The code units of `n` name slots stored one after the other from offset `q` on,
in slot order. -/
def nameUnits (img : Image) (q : Int) : Nat → List Int
  | 0 => []
  | n + 1 => slotUnits img q ++ nameUnits img (q + 32) n

/-- The code units of `n` name slots that follow each other along the cluster chain
from cursor `c` on, together with the cursor behind the last of them. -/
def nameSlots (g : Geometry) (img : Image) : Nat → Cursor → Option (List Int × Cursor)
  | 0, c => some ([], c)
  | n + 1, c =>
    if 0 ≤ c.pos ∧ c.pos + 32 ≤ img.size then
      match advance g img c with
      | none => none
      | some c1 =>
        match nameSlots g img n c1 with
        | none => none
        | some (us, c2) => some (slotUnits img c.pos ++ us, c2)
    else none

/-- The content of a directory as a tree: the entry sets in storage order, each with
its narrowed name, a directory entry carrying the content of that directory. -/
inductive Listing where
  | nil : Listing
  | file (name : List Int) (rest : Listing) : Listing
  | dir (name : List Int) (children : Listing) (rest : Listing) : Listing

/-- The first `nameLength` code units, narrowed to their low bytes. -/
def narrow (units : List Int) (nameLength : Int) : List Int :=
  (units.take nameLength.toNat).map (fun u => u % 256)

/-- An entry set stored along the cluster chain: primary slot at `c`, stream
extension at `c1`, the `secondaryCount - 1` name slots from `c2` on with code units
`units`, and `cN` the cursor behind the set.  All slots lie inside the image,
`2 ≤ secondaryCount ≤ 18` and `1 ≤ nameLength ≤ 15 * (secondaryCount - 1)`.  The
last condition leaves out the placements in which a cluster ends directly behind
the first name slot of a set that has further name slots. -/
def EntrySetAt (g : Geometry) (img : Image) (c c1 c2 cN : Cursor) (units : List Int) : Prop :=
  (0 ≤ c.pos ∧ c.pos + 32 ≤ img.size) ∧
  img.byte c.pos % 256 = 133 ∧
  (2 ≤ img.byte (c.pos + 1) % 256 ∧ img.byte (c.pos + 1) % 256 ≤ 18) ∧
  advance g img c = some c1 ∧
  (0 ≤ c1.pos ∧ c1.pos + 32 ≤ img.size) ∧
  (1 ≤ img.byte (c1.pos + 3) % 256 ∧
    img.byte (c1.pos + 3) % 256 ≤ 15 * (img.byte (c.pos + 1) % 256 - 1)) ∧
  advance g img c1 = some c2 ∧
  nameSlots g img (img.byte (c.pos + 1) % 256 - 1).toNat c2 = some (units, cN) ∧
  (3 ≤ img.byte (c.pos + 1) % 256 → c2.bytesReadInCluster + 32 ≠ bytesPerCluster g)

/-- The cursor with which `listRecurse` and `get` start on a directory whose first
cluster is given by the `uint32_t` value `firstCluster`. -/
def startCursor (g : Geometry) (firstCluster : Int) : Cursor :=
  { pos := findOffsetToCluster g (wrapI32 firstCluster), currCluster := wrapI32 firstCluster,
    bytesReadInCluster := 0 }

/-- `Stored g img c t`: from cursor `c` on, the directory holds exactly the entry
sets of the tree `t`, in this order, possibly separated by slots of other types,
and then a slot of type `0x00`; the content of every sub-directory is stored in the
same way from its first cluster on. -/
inductive Stored (g : Geometry) (img : Image) : Cursor → Listing → Prop
  | done (c : Cursor) :
      0 ≤ c.pos → c.pos < img.size → img.byte c.pos % 256 = 0 → Stored g img c Listing.nil
  | skip (c c1 : Cursor) (t : Listing) :
      0 ≤ c.pos → c.pos < img.size → img.byte c.pos % 256 ≠ 133 → img.byte c.pos % 256 ≠ 0 →
      advance g img c = some c1 → Stored g img c1 t → Stored g img c t
  | file (c c1 c2 cN : Cursor) (units name : List Int) (rest : Listing) :
      EntrySetAt g img c c1 c2 cN units →
      (leValue img (c.pos + 4) 2).toNat.testBit 4 = false →
      name = narrow units (img.byte (c1.pos + 3) % 256) →
      Stored g img cN rest → Stored g img c (Listing.file name rest)
  | dir (c c1 c2 cN : Cursor) (units name : List Int) (children rest : Listing) :
      EntrySetAt g img c c1 c2 cN units →
      (leValue img (c.pos + 4) 2).toNat.testBit 4 = true →
      name = narrow units (img.byte (c1.pos + 3) % 256) →
      Stored g img (startCursor g (leValue img (c1.pos + 20) 4)) children →
      Stored g img cN rest → Stored g img c (Listing.dir name children rest)

/-- One slot of each of the given entry types, the other bytes being zero. -/
def fillerSlots (types : List Int) : List Int :=
  types.flatMap (fun t => t :: List.replicate 31 0)

/-- FAT entries of the two volumes below: the root directory is the chain
2 -> 4, cluster 3 belongs to a file. -/
def splitFat : (Int × List Int) :=
  (512 + 8, le32 4 ++ le32 4294967295 ++ le32 4294967295)

/-- Content of cluster 3 (file data) and of cluster 4 (second cluster of the root
directory, from its second slot on: the entry set of `b.txt` and the end marker). -/
def splitTail : List (Int × List Int) :=
  [(1536, ascii "The quick brown fox jumps over the lazy dog"),
   (2080, primarySlot 2 32), (2112, streamSlot 5 7 3), (2144, nameSlot "b.txt")]

/-- Root directory with 512-byte clusters (16 slots each): 12 other slots, then the
entry set of the file `sixteen_chars.tx` (16 characters, two name slots) in slots
12..15 of cluster 2, so that the set ends with the cluster; the chain continues in
cluster 4 with another slot, the entry set of `b.txt` and the end marker. -/
def alignedImage : Image :=
  mkImage 4096 (bootFields ++ [splitFat,
    (1024, fillerSlots [131, 129, 130, 5, 64, 65, 65, 5, 64, 65, 5, 64]),
    (1408, primarySlot 3 32), (1440, streamSlot 16 6 5),
    (1472, nameSlot "sixteen_chars.t"), (1504, nameSlot "x"),
    (2048, [65])] ++ splitTail)

/-- The same entry sets one slot later: 13 other slots, then the entry set of
`sixteen_chars.tx` in slots 13..15 of cluster 2 and slot 0 of cluster 4, i.e. the
cluster boundary falls between its two name slots, and the next cluster of the
chain (4) is not the physically adjacent one (3). -/
def straddleImage : Image :=
  mkImage 4096 (bootFields ++ [splitFat,
    (1024, fillerSlots [131, 129, 130, 5, 64, 65, 65, 5, 64, 65, 5, 64, 65]),
    (1440, primarySlot 3 32), (1472, streamSlot 16 6 5),
    (1504, nameSlot "sixteen_chars.t"), (2048, nameSlot "x")] ++ splitTail)

/-! ## Further readers and fixtures -/

/-- Source lines 101-105: the value stored in `serialNumber`. -/
def getSerialNumber (img : Image) : Option Int :=
  img.readLE 100 4

/-- Source lines 108-112: the value stored in `rootDirectory`. -/
def getRootDirectory (img : Image) : Option Int :=
  img.readLE 96 4

/-- The geometry of a small volume with 12 clusters of 512 bytes: the cluster count
is not a multiple of 8. -/
def oddVolume : Geometry :=
  { clstHeapOffset := 2, fatOffset := 1, clusterCount := 12,
    bytesPerSector := 512, sectorsPerCluster := 1 }

/-! ## `info`: locating the allocation bitmap -/

/-- The search loop of `allocationBitMap` (source lines 294-321).  `currCluster` is
a `uint32_t`, `bytesReadInCluster` a `long`.  A slot of another type is left with
`lseek (fd, BYTES_PER_ENTRY - bytesReadInCluster, SEEK_CUR)`, the count of bytes
read in the cluster standing where a count of bytes read in the entry is meant.
When the entry of type 0x81 is found, the result is the pair of arguments
`(bytesOffset, currCluster)` of the call of `getEmptys` and the cursor position at
that call; `bytesOffset` is an `int` computed in `unsigned int` arithmetic.  `fuel`
bounds the number of iterations. -/
def allocationBitMapLoop (g : Geometry) (img : Image) :
    Nat → Int → Int → Int → Option (Int × Int × Int)
  | 0, _, _, _ => none
  | fuel + 1, pos, currCluster, bytesReadInCluster =>
    match img.read8 pos with
    | none => none
    | some entryType =>
      if entryType = 129 then
        match img.readLE (pos + 20) 4 with
        | none => none
        | some firstCluster =>
          some (wrapI32 (wrapU32 (wrapU32 (g.clstHeapOffset + wrapU32 (firstCluster - 2))
                  * wrapU32 g.bytesPerSector)),
                currCluster, pos + 24)
      else
        let skip := 32 - (bytesReadInCluster + 1)
        let pos1 := if 0 ≤ pos + 1 + skip then pos + 1 + skip else pos + 1
        if bytesReadInCluster + 1 + skip = bytesPerCluster g then
          match nextCluster g img currCluster with
          | none => none
          | some next =>
            allocationBitMapLoop g img fuel (findOffsetToCluster g (wrapI32 next)) next 0
        else allocationBitMapLoop g img fuel pos1 currCluster (bytesReadInCluster + 1 + skip)

/-- Source lines 283-293: where the search starts.  `myOffset` is an `int`; `pos0` is
the cursor position on entry, kept when `lseek` rejects a negative offset. -/
def allocationBitMapStart (g : Geometry) (rootDirectory pos0 : Int) : Int :=
  let myOffset := wrapI32 (wrapU32 (wrapU32 (g.clstHeapOffset
      + wrapU32 (wrapU32 (rootDirectory - 2) * wrapU32 g.sectorsPerCluster))
    * wrapU32 g.bytesPerSector))
  if 0 ≤ myOffset then myOffset else pos0

/-- The byte offset at which the bitmap scan of `getEmptys` starts when
`allocationBitMap` calls it (source lines 306-308 and 259). -/
def allocationBitMapScanStart (g : Geometry) (img : Image) (fuel : Nat)
    (rootDirectory pos0 : Int) : Option Int :=
  match allocationBitMapLoop g img fuel (allocationBitMapStart g rootDirectory pos0)
      rootDirectory 0 with
  | none => none
  | some (bytesOffset, _, posAtCall) => some (if 0 ≤ bytesOffset then bytesOffset else posAtCall)

/-- Source lines 283-322: the value of `freeSpaceKB` after `allocationBitMap`;
`rootDirectory` is the `uint32_t` global. -/
def allocationBitMap (g : Geometry) (img : Image) (fuel : Nat) (rootDirectory pos0 : Int) :
    Option Int :=
  match allocationBitMapLoop g img fuel (allocationBitMapStart g rootDirectory pos0)
      rootDirectory 0 with
  | none => none
  | some (bytesOffset, currCluster, posAtCall) =>
    getEmptys g img posAtCall bytesOffset currCluster

/-- The `i`-th cluster of the FAT chain that starts at cluster `c`. -/
def chainFrom (g : Geometry) (img : Image) : Nat → Int → Option Int
  | 0, c => some c
  | i + 1, c =>
    match nextCluster g img (wrapU32 c) with
    | none => none
    | some next => chainFrom g img i (wrapI32 next)

/-- Number of zero bits among the first `n` bytes of the data stored along the FAT
chain that starts at cluster `first`: byte `k` is taken from the cluster
`k / bytesPerCluster` of the chain, at offset `k mod bytesPerCluster`. -/
def zeroBitsAlongChain (g : Geometry) (img : Image) (first : Int) : Nat → Option Int
  | 0 => some 0
  | k + 1 =>
    match zeroBitsAlongChain g img first k,
        chainFrom g img ((k : Int) / bytesPerCluster g).toNat first with
    | some z, some c =>
      some (z + zeroBits
        (img.byte (findOffsetToCluster g c + (k : Int) % bytesPerCluster g) % 256))
    | _, _ => none

/-- Boot-sector fields of a volume with 512-byte sectors and two sectors per
cluster: FAT in sector 1, cluster heap from sector 2 on, 16 clusters, root
directory in cluster 2. -/
def bootFieldsTwo : List (Int × List Int) :=
  [(80, le32 1), (88, le32 2 ++ le32 16), (96, le32 2), (108, [9, 1])]

/-- The geometry stored in `bootFieldsTwo`. -/
def twoSectorVolume : Geometry :=
  { clstHeapOffset := 2, fatOffset := 1, clusterCount := 16,
    bytesPerSector := 512, sectorsPerCluster := 2 }

/-- A volume with 1024-byte clusters whose root directory (cluster 2, at byte 1024)
holds the volume label and the allocation-bitmap entry; the bitmap is cluster 3, at
byte 2048, with the first three bits set. -/
def twoSectorImage : Image :=
  mkImage 8192 (bootFieldsTwo ++
    [(512 + 8, le32 4294967295 ++ le32 4294967295),
     (1024, [131, 3, 65, 0, 66, 0, 67, 0]),
     (1056, [129, 0] ++ List.replicate 18 0 ++ le32 3 ++ le32 2),
     (2048, [7, 0])])

/-- The geometry of a 4 MiB volume: 8192 clusters of 512 bytes, the FAT in sector 1,
the cluster heap from sector 128 on. -/
def fragVolume : Geometry :=
  { clstHeapOffset := 128, fatOffset := 1, clusterCount := 8192,
    bytesPerSector := 512, sectorsPerCluster := 1 }

/-- A 4 MiB volume whose bitmap (1024 bytes) is the chain 3 -> 5: the root directory
is cluster 2 (byte 65536), clusters 3 (byte 66048) and 5 (byte 67072) hold `0xFF`
throughout, i.e. no cluster is free; cluster 4 (byte 66560) belongs to a file and
holds zero bytes. -/
def fragImage : Image :=
  { size := 4259840,
    byte := fun p =>
      if (66048 ≤ p ∧ p < 66560) ∨ (67072 ≤ p ∧ p < 67584) then 255
      else if p < 66048 then chunkByte
        [(80, le32 1), (88, le32 128 ++ le32 8192), (96, le32 2), (108, [9, 0]),
         (512 + 8, le32 4294967295 ++ le32 5 ++ le32 4294967295 ++ le32 4294967295),
         (65536, [131, 3, 65, 0, 66, 0, 67, 0]),
         (65568, [129, 0] ++ List.replicate 18 0 ++ le32 3 ++ le32 1024)] p
      else 0 }

/-- A volume with 1024-byte clusters whose root directory starts with an entry set
of `secondaryCount` 19: the stream extension (`nameLength` 255) and 18 name slots,
each holding 15 times the letter `a`. -/
def longNameImage : Image :=
  mkImage 8192 (bootFieldsTwo ++
    [(512 + 8, le32 4294967295),
     (1024, primarySlot 19 32), (1056, streamSlot 255 3 0),
     (1088, (List.replicate 18
        ([193, 0] ++ (List.replicate 15 [97, 0]).flatten)).flatten)])

/-! ## `get`: the copy loop with its bookkeeping -/

/-- What the copy loop of `getFile` has done so far: the number of completed
iterations, for each of them the value of `currCluster` and the file offset of its
`read`, the value of `bytesRead`, and the bytes written. -/
structure CopyTrace where
  iterations : Nat
  reads : List (Int × Int)
  bytesRead : Int
  out : List Int
  deriving DecidableEq

/-- The loop of `getFileLoop` (source lines 518-528) once more, keeping the whole
`CopyTrace` instead of the output alone. -/
def getFileTraceLoop (g : Geometry) (img : Image) (length : Int) :
    Nat → Option (Int × Int) → CopyTrace → Option CopyTrace
  | 0, _, t => if t.bytesRead = length then some t else none
  | fuel + 1, cur, t =>
    if t.bytesRead = length then some t
    else
      match cur with
      | none => none
      | some (currCluster, pos) =>
        let bytesToRead : Int :=
          if wrapU64 (length - t.bytesRead) < wrapU64 (bytesPerCluster g) then
            wrapU64 (length - t.bytesRead)
          else wrapU64 (bytesPerCluster g)
        match img.readBytes pos (bytesPerCluster g).toNat with
        | none => none
        | some cluster =>
          let next : Option (Int × Int) :=
            match nextCluster g img (wrapU32 currCluster) with
            | some n => some (wrapI32 n, findOffsetToCluster g (wrapI32 n))
            | none => none
          getFileTraceLoop g img length fuel next
            { iterations := t.iterations + 1,
              reads := t.reads ++ [(currCluster, pos)],
              bytesRead := wrapU64 (t.bytesRead + bytesToRead),
              out := t.out ++ cluster }

/-- Source lines 511-529 with the bookkeeping of the loop. -/
def getFileTrace (g : Geometry) (img : Image) (fuel : Nat) (startCluster : Int)
    (length : Int) : Option CopyTrace :=
  getFileTraceLoop g img length fuel (some (startCluster, findOffsetToCluster g startCluster))
    { iterations := 0, reads := [], bytesRead := 0, out := [] }

/-- The `n` bytes stored from offset `pos` on. -/
def bytesAt (img : Image) (pos : Int) : Nat → List Int
  | 0 => []
  | n + 1 => img.byte pos % 256 :: bytesAt img (pos + 1) n

/-- The first `n` clusters of the FAT chain that starts at cluster `c` (the chain is
continued with cluster 0 where the FAT cannot be read). -/
def chainClusters (g : Geometry) (img : Image) : Nat → Int → List Int
  | 0, _ => []
  | n + 1, c =>
    c :: chainClusters g img n
      (match nextCluster g img (wrapU32 c) with
       | some next => wrapI32 next
       | none => 0)

/-! ## `get`: resolving the path -/

/-- One call of `strtok` with the delimiter `/` on what is left of the string:
the token and the rest behind the delimiter that ended it, `none` for `NULL`. -/
def strtok (s : List Int) : Option (List Int × List Int) :=
  match s.dropWhile (fun b => b == 47) with
  | [] => none
  | b :: rest =>
    some ((b :: rest).takeWhile (fun b => b != 47),
          ((b :: rest).dropWhile (fun b => b != 47)).drop 1)

/-- The value of `currentLookUp` after `strtok (myPath, "/")` and `levels` calls
`strtok (NULL, "/")` (source lines 563-567). -/
def currentLookUp : Nat → List Int → Option (List Int)
  | 0, s => (strtok s).map (fun r => r.1)
  | levels + 1, s =>
    match strtok s with
    | none => none
    | some (_, rest) => currentLookUp levels rest

/-- The `while` loop of `get` (source lines 571-690), with the recursive call at
line 663 unfolded as in `listLoop`.  `path` is the global string.  `strcmp` with the
`NULL` pointer has no defined result (`none`).  The result lists the files written
by `getFile`, each with its name and content; the recursive call and `getFile`
share the fuel of the loop. -/
def getLoop (g : Geometry) (img : Image) (junk : List Int) (path : List Int) :
    Nat → Cursor → List Int → Nat → Option (List (List Int × List Int))
  | 0, _, _, _ => none
  | fuel + 1, c, unicodeString, levels =>
    match img.read8 c.pos with
    | none => none
    | some currEntryType =>
      if currEntryType = 133 then
        match readEntrySet true g img c unicodeString with
        | none => none
        | some (e, c4, buf) =>
          match unicode2ascii buf e.nameLength, currentLookUp levels (cString path) with
          | some asciiString, some lookUp =>
            if e.directory = false ∧ lookUp = cString asciiString then
              -- line 665: done = true; getFile
              match getFile g img fuel (wrapI32 e.nextDirCluster) e.length with
              | none => none
              | some content => some [(lookUp, content)]
            else
              let sub : Option (List (List Int × List Int)) :=
                -- line 661
                if e.directory = true ∧ lookUp = cString asciiString then
                  getLoop g img junk path fuel
                    { pos := findOffsetToCluster g (wrapI32 e.nextDirCluster),
                      currCluster := wrapI32 e.nextDirCluster, bytesReadInCluster := 0 }
                    junk (levels + 1)
                else some []
              match sub with
              | none => none
              | some files =>
                match goToNextCluster g img
                    { pos := findOffsetToCluster g c4.currCluster + c4.bytesReadInCluster,
                      currCluster := c4.currCluster,
                      bytesReadInCluster := c4.bytesReadInCluster } with
                | none => none
                | some c5 =>
                  match getLoop g img junk path fuel c5 buf levels with
                  | none => none
                  | some rest => some (files ++ rest)
          | _, _ => none
      else if currEntryType = 0 then some []
      else
        match advance g img c with
        | none => none
        | some c1 => getLoop g img junk path fuel c1 unicodeString levels

/-- Source lines 538-691: `firstCluster` and `levels` are the `int` arguments. -/
def get (img : Image) (junk : List Int) (path : List Int) (fuel : Nat) (firstCluster : Int)
    (levels : Nat) : Option (List (List Int × List Int)) :=
  match readGeometry img with
  | none => none
  | some g =>
    getLoop g img junk path fuel
      { pos := findOffsetToCluster g firstCluster, currCluster := firstCluster,
        bytesReadInCluster := 0 }
      junk levels

/-- The narrowed names of the entry sets of a directory, sub-directories not
entered. -/
def topNames : Listing → List (List Int)
  | Listing.nil => []
  | Listing.file name rest => name :: topNames rest
  | Listing.dir name _ rest => name :: topNames rest

/-- `FileAt g img seg c fc len`: walking the directory from cursor `c` on, the
first entry set whose name, cut at its first zero byte, equals `seg` is a file,
with first cluster `fc` and data length `len`; the entry sets before it are stored
as in `EntrySetAt`. -/
inductive FileAt (g : Geometry) (img : Image) (seg : List Int) : Cursor → Int → Int → Prop
  | here (c c1 c2 cN : Cursor) (units : List Int) :
      EntrySetAt g img c c1 c2 cN units →
      (leValue img (c.pos + 4) 2).toNat.testBit 4 = false →
      cString (narrow units (img.byte (c1.pos + 3) % 256)) = seg →
      FileAt g img seg c (leValue img (c1.pos + 20) 4) (leValue img (c1.pos + 24) 8)
  | skip (c c1 : Cursor) (fc len : Int) :
      0 ≤ c.pos → c.pos < img.size → img.byte c.pos % 256 ≠ 133 → img.byte c.pos % 256 ≠ 0 →
      advance g img c = some c1 → FileAt g img seg c1 fc len → FileAt g img seg c fc len
  | pass (c c1 c2 cN : Cursor) (units : List Int) (fc len : Int) :
      EntrySetAt g img c c1 c2 cN units →
      cString (narrow units (img.byte (c1.pos + 3) % 256)) ≠ seg →
      FileAt g img seg cN fc len → FileAt g img seg c fc len

/-- A volume whose root directory holds the file `note.txt` (cluster 3, 10 bytes)
and a file named by the code units U+0061, U+0100 (cluster 4, 5 bytes), whose
narrowed name is `a` followed by a zero byte. -/
def rootFileImage : Image :=
  mkImage 4096 (bootFields ++
    [(512 + 8, le32 4294967295 ++ le32 4294967295 ++ le32 4294967295),
     (1024, [131, 3, 65, 0, 66, 0, 67, 0]),
     (1056, primarySlot 2 32), (1088, streamSlot 8 3 10), (1120, nameSlot "note.txt"),
     (1152, primarySlot 2 32), (1184, streamSlot 2 4 5), (1216, [193, 0, 97, 0, 0, 1]),
     (1536, ascii "hello!!!!\n"), (2048, ascii "world")])

/-- A volume whose root directory holds the volume label, the up-case table entry
and, in its third slot, the allocation-bitmap entry (first cluster 3). -/
def lateBitmapImage : Image :=
  mkImage 4096 (bootFields ++
    [(512 + 8, le32 4294967295 ++ le32 4294967295),
     (1024, [131, 3, 65, 0, 66, 0, 67, 0]),
     (1056, [130, 0]),
     (1088, [129, 0] ++ List.replicate 18 0 ++ le32 3 ++ le32 2),
     (1536, [7, 0])])

/-! ## Reference: the pieces of a path -/

/-- The list of the non-empty `/`-separated pieces of a path: the path is cut at
every `/` (byte 47), and the empty pieces are left out. -/
def pathPieces (path : List Int) : List (List Int) :=
  (path.splitOn 47).filter (fun piece => !piece.isEmpty)

/-! # Properties -/

/-! ## Basic facts about reads -/

theorem read8_of_lt (img : Image) (p : Int) (h0 : 0 ≤ p) (h1 : p < img.size) :
    img.read8 p = some (img.byte p % 256) := by
  simp [Image.read8, h0, h1]

theorem readLE_of_le (img : Image) (n : Nat) :
    ∀ p : Int, 0 ≤ p → p + n ≤ img.size → img.readLE p n = some (leValue img p n) := by
  induction n with
  | zero => intro p _ _; rfl
  | succ k ih =>
    intro p h0 h1
    have hk : p + 1 + (k : Int) ≤ img.size := by push_cast at h1; omega
    have hlt : p < img.size := by push_cast at h1; omega
    simp [Image.readLE, leValue, read8_of_lt img p h0 hlt, ih (p + 1) (by omega) hk]

theorem leValue_congr (img img2 : Image) (n : Nat) :
    ∀ p : Int, (∀ k : Int, 0 ≤ k → k < n → img2.byte (p + k) % 256 = img.byte (p + k) % 256) →
      leValue img2 p n = leValue img p n := by
  induction n with
  | zero => intro p _; rfl
  | succ k ih =>
    intro p h
    have h0 := h 0 (le_refl 0) (by push_cast; omega)
    simp only [add_zero] at h0
    have hk : leValue img2 (p + 1) k = leValue img (p + 1) k := by
      apply ih
      intro j hj0 hj1
      have := h (1 + j) (by omega) (by push_cast; omega)
      rwa [← add_assoc] at this
    simp [leValue, h0, hk]

/-! ## Conversions -/

theorem wrapU32_wrapI32 (x : Int) : wrapU32 (wrapI32 x) = wrapU32 x := by
  unfold wrapU32 wrapI32; omega

theorem wrapU32_add_right (a b : Int) : wrapU32 (a + wrapU32 b) = wrapU32 (a + b) := by
  unfold wrapU32; omega

theorem wrapU32_mul (a b : Int) : wrapU32 (wrapU32 a * wrapU32 b) = wrapU32 (a * b) := by
  unfold wrapU32; exact (Int.mul_emod a b _).symm

theorem wrapU32_mul_left (a b : Int) : wrapU32 (wrapU32 a * b) = wrapU32 (a * b) := by
  unfold wrapU32
  rw [Int.mul_emod, Int.emod_emod_of_dvd _ (dvd_refl _), ← Int.mul_emod]

theorem wrapU32_mul_right (a b : Int) : wrapU32 (a * wrapU32 b) = wrapU32 (a * b) := by
  rw [mul_comm, wrapU32_mul_left, mul_comm]

theorem wrapU32_of_range (x : Int) (h0 : 0 ≤ x) (h1 : x < 4294967296) : wrapU32 x = x := by
  unfold wrapU32; omega

theorem wrapI32_of_range (x : Int) (h0 : -2147483648 ≤ x) (h1 : x < 2147483648) :
    wrapI32 x = x := by
  unfold wrapI32; omega

theorem wrapU32_nonneg (x : Int) : 0 ≤ wrapU32 x := by
  unfold wrapU32; omega

theorem wrapU32_lt (x : Int) : wrapU32 x < 4294967296 := by
  unfold wrapU32; omega

/-! ## Cluster addressing -/

/-- Every conversion inside `findOffsetToCluster` is a reduction modulo `2 ^ 32`,
so the result is the residue of the intended value. -/
theorem findOffsetToCluster_eq_mod (g : Geometry) (c : Int) :
    findOffsetToCluster g c =
      ((g.clstHeapOffset + (c - 2) * g.sectorsPerCluster) * g.bytesPerSector) % 4294967296 := by
  unfold findOffsetToCluster
  rw [wrapU32_mul, wrapU32_wrapI32]
  have h : wrapU32 (wrapI32 (c - 2) * g.sectorsPerCluster)
      = wrapU32 ((c - 2) * g.sectorsPerCluster) := by
    rw [← wrapU32_mul_left, wrapU32_wrapI32, wrapU32_mul_left]
  have h2 : wrapU32 (g.clstHeapOffset + wrapI32 (c - 2) * g.sectorsPerCluster)
      = wrapU32 (g.clstHeapOffset + (c - 2) * g.sectorsPerCluster) := by
    rw [← wrapU32_add_right, h, wrapU32_add_right]
  rw [← wrapU32_mul_left, wrapU32_add_right, h2, wrapU32_mul_left]
  rfl

theorem findOffsetToCluster_nonneg (g : Geometry) (c : Int) : 0 ≤ findOffsetToCluster g c :=
  wrapU32_nonneg _

/-- Below 4 GiB the offset is the intended value. -/
theorem findOffsetToCluster_of_lt (g : Geometry) (c : Int)
    (hh : 0 ≤ g.clstHeapOffset) (hs : 0 ≤ g.sectorsPerCluster) (hb : 0 ≤ g.bytesPerSector)
    (hc : 2 ≤ c)
    (hlt : (g.clstHeapOffset + (c - 2) * g.sectorsPerCluster) * g.bytesPerSector < 4294967296) :
    findOffsetToCluster g c =
      (g.clstHeapOffset + (c - 2) * g.sectorsPerCluster) * g.bytesPerSector := by
  rw [findOffsetToCluster_eq_mod]
  apply Int.emod_eq_of_lt _ hlt
  have : 0 ≤ (c - 2) * g.sectorsPerCluster := mul_nonneg (by omega) hs
  exact mul_nonneg (by omega) hb

/-- C2 (as stated, refuted): on an 8 GiB volume with 4 KiB clusters the cluster
`2 + 2 ^ 20` lies at byte `2 ^ 32 + 2 ^ 20`, but `findOffsetToCluster` returns
`2 ^ 20`. -/
theorem findOffsetToCluster_not_exact :
    findOffsetToCluster bigVolume 1048578 = 1048576 ∧
    (bigVolume.clstHeapOffset + (1048578 - 2) * bigVolume.sectorsPerCluster)
      * bigVolume.bytesPerSector = 4296015872 ∧
    findOffsetToCluster bigVolume 1048578 ≠
      (bigVolume.clstHeapOffset + (1048578 - 2) * bigVolume.sectorsPerCluster)
        * bigVolume.bytesPerSector := by
  decide

/-- C2 (amended): for a cluster index `c ≥ 2` whose intended byte offset
`(clstHeapOffset + (c - 2) * sectorsPerCluster) * bytesPerSector` is below `2 ^ 32`
(the `int` product `(c - 2) * sectorsPerCluster` not overflowing),
`findOffsetToCluster c` returns exactly that value. -/
theorem findOffsetToCluster_exact_below_4GiB (g : Geometry) (c : Int)
    (hh : 0 ≤ g.clstHeapOffset) (hs : 0 ≤ g.sectorsPerCluster) (hb : 0 ≤ g.bytesPerSector)
    (hc : 2 ≤ c) (_hint : c < 2147483648)
    (_hfit : (c - 2) * g.sectorsPerCluster < 2147483648)
    (hlt : (g.clstHeapOffset + (c - 2) * g.sectorsPerCluster) * g.bytesPerSector < 4294967296) :
    findOffsetToCluster g c =
      (g.clstHeapOffset + (c - 2) * g.sectorsPerCluster) * g.bytesPerSector :=
  findOffsetToCluster_of_lt g c hh hs hb hc hlt

theorem findOffsetToCluster_exact_below_4GiB_witness :
    findOffsetToCluster bigVolume 1000 = (2048 + (1000 - 2) * 8) * 512 :=
  findOffsetToCluster_exact_below_4GiB bigVolume 1000 (by decide) (by decide) (by decide)
    (by decide) (by decide) (by decide) (by decide)

/-- C3 (as stated, refuted): on the 8 GiB volume the valid clusters `1048321` and
`1048322` are not one cluster size apart: the first lies 4 KiB below `2 ^ 32`, the
second is addressed at offset `0`. -/
theorem findOffsetToCluster_spacing_fails :
    (2 ≤ (1048321 : Int) ∧ (1048321 : Int) < bigVolume.clusterCount + 1) ∧
    findOffsetToCluster bigVolume 1048321 = 4294963200 ∧
    findOffsetToCluster bigVolume (1048321 + 1) = 0 ∧
    findOffsetToCluster bigVolume (1048321 + 1) - findOffsetToCluster bigVolume 1048321
      ≠ bigVolume.bytesPerSector * bigVolume.sectorsPerCluster := by
  decide

/-- C3 (amended): for a cluster index `c` with `2 ≤ c < clusterCount + 1` such that
the intended byte offset of cluster `c + 1` is below `2 ^ 32` (positive sector and
cluster sizes, no `int` overflow), the offsets of `c + 1` and `c` differ by exactly
`bytesPerSector * sectorsPerCluster`, and the offset of `c + 1` is the larger one. -/
theorem findOffsetToCluster_spacing (g : Geometry) (c : Int)
    (hh : 0 ≤ g.clstHeapOffset) (hs : 0 < g.sectorsPerCluster) (hb : 0 < g.bytesPerSector)
    (hc : 2 ≤ c) (_hcc : c < g.clusterCount + 1) (_hint : c + 1 < 2147483648)
    (_hfit : (c + 1 - 2) * g.sectorsPerCluster < 2147483648)
    (hlt : (g.clstHeapOffset + (c + 1 - 2) * g.sectorsPerCluster) * g.bytesPerSector
      < 4294967296) :
    findOffsetToCluster g (c + 1) - findOffsetToCluster g c
      = g.bytesPerSector * g.sectorsPerCluster ∧
    findOffsetToCluster g c < findOffsetToCluster g (c + 1) := by
  have hpos : 0 < g.bytesPerSector * g.sectorsPerCluster := mul_pos hb hs
  have hstep : (g.clstHeapOffset + (c + 1 - 2) * g.sectorsPerCluster) * g.bytesPerSector
      = (g.clstHeapOffset + (c - 2) * g.sectorsPerCluster) * g.bytesPerSector
        + g.bytesPerSector * g.sectorsPerCluster := by ring
  have h1 := findOffsetToCluster_of_lt g (c + 1) hh (le_of_lt hs) (le_of_lt hb) (by omega) hlt
  have h0 := findOffsetToCluster_of_lt g c hh (le_of_lt hs) (le_of_lt hb) hc (by omega)
  rw [h1, h0]
  constructor
  · rw [hstep]; ring
  · omega

theorem findOffsetToCluster_spacing_witness :
    findOffsetToCluster bigVolume (1000 + 1) - findOffsetToCluster bigVolume 1000
      = bigVolume.bytesPerSector * bigVolume.sectorsPerCluster ∧
    findOffsetToCluster bigVolume 1000 < findOffsetToCluster bigVolume (1000 + 1) :=
  findOffsetToCluster_spacing bigVolume 1000 (by decide) (by decide) (by decide)
    (by decide) (by decide) (by decide) (by decide) (by decide)

/-! ## The FAT -/

theorem fatEntryPos_nonneg (g : Geometry) (cur : Int) : 0 ≤ fatEntryPos g cur := by
  unfold fatEntryPos wrapU32; omega

/-- C4 (as stated, refuted): on a 1 TiB image with the FAT at byte 65536, the four
bytes at `fatOffset * bytesPerSector + 4 * 2 ^ 30` lie inside the image and hold
the value 7, but `nextCluster (2 ^ 30)` returns the value 0 of FAT entry 0, because
`4 * currCluster` is reduced modulo `2 ^ 32`. -/
theorem nextCluster_wraps :
    hugeVolume.fatOffset * hugeVolume.bytesPerSector + 4 * 1073741824 + 4 ≤ hugeImage.size ∧
    leValue hugeImage (hugeVolume.fatOffset * hugeVolume.bytesPerSector + 4 * 1073741824) 4 = 7 ∧
    nextCluster hugeVolume hugeImage 1073741824 = some 0 ∧
    nextCluster hugeVolume hugeImage 1073741824 ≠
      some (leValue hugeImage
        (hugeVolume.fatOffset * hugeVolume.bytesPerSector + 4 * 1073741824) 4) := by
  decide

/-- C4 (amended): with `p = (fatOffset * bytesPerSector) mod 2 ^ 32 +
(4 * cur) mod 2 ^ 32`, which is `fatOffset * bytesPerSector + 4 * cur` whenever
both products are below `2 ^ 32`: if the four bytes at `p` lie inside the image,
`nextCluster cur` returns their little-endian value, and every image with the same
four bytes at `p` gives the same result. -/
theorem nextCluster_reads_fat_entry (g : Geometry) (img : Image) (cur p : Int)
    (hb : 0 ≤ g.bytesPerSector)
    (hp : p = (g.fatOffset * g.bytesPerSector) % 4294967296 + (4 * cur) % 4294967296)
    (hin : p + 4 ≤ img.size) :
    nextCluster g img cur = some (leValue img p 4) ∧
    (∀ img2 : Image, p + 4 ≤ img2.size →
      (∀ k : Int, 0 ≤ k → k < 4 → img2.byte (p + k) % 256 = img.byte (p + k) % 256) →
      nextCluster g img2 cur = nextCluster g img cur) ∧
    (0 ≤ g.fatOffset → g.fatOffset * g.bytesPerSector < 4294967296 →
      0 ≤ cur → 4 * cur < 4294967296 → p = g.fatOffset * g.bytesPerSector + 4 * cur) := by
  have hpos : fatEntryPos g cur = p := by
    rw [hp]; unfold fatEntryPos
    rw [wrapU32_mul_right]; rfl
  have hp0 : 0 ≤ p := hpos ▸ fatEntryPos_nonneg g cur
  have hread : ∀ im : Image, p + 4 ≤ im.size → nextCluster g im cur = some (leValue im p 4) := by
    intro im him
    unfold nextCluster
    rw [hpos]
    exact readLE_of_le im 4 p hp0 (by push_cast; omega)
  refine ⟨hread img hin, ?_, ?_⟩
  · intro img2 hin2 hsame
    rw [hread img hin, hread img2 hin2, leValue_congr img img2 4 p]
    intro k hk0 hk4
    exact hsame k hk0 (by exact_mod_cast hk4)
  · intro hf hlt hc hc4
    have h0 : 0 ≤ g.fatOffset * g.bytesPerSector := mul_nonneg hf hb
    rw [hp, Int.emod_eq_of_lt h0 hlt, Int.emod_eq_of_lt (by omega) hc4]

theorem nextCluster_reads_fat_entry_witness :
    nextCluster hugeVolume hugeImage 2 = some (leValue hugeImage 65544 4) ∧
    (∀ img2 : Image, 65544 + 4 ≤ img2.size →
      (∀ k : Int, 0 ≤ k → k < 4 →
        img2.byte (65544 + k) % 256 = hugeImage.byte (65544 + k) % 256) →
      nextCluster hugeVolume img2 2 = nextCluster hugeVolume hugeImage 2) ∧
    (0 ≤ hugeVolume.fatOffset → hugeVolume.fatOffset * hugeVolume.bytesPerSector < 4294967296 →
      0 ≤ (2 : Int) → 4 * (2 : Int) < 4294967296 →
      (65544 : Int) = hugeVolume.fatOffset * hugeVolume.bytesPerSector + 4 * 2) :=
  nextCluster_reads_fat_entry hugeVolume hugeImage 2 65544 (by decide) (by decide)
    (by decide)

/-! ## Narrowing -/

theorem narrowLoop_spec (us : List Int) :
    ∀ (k i : Nat) (pre post : List Int), pre.length = i → i + k ≤ us.length →
      narrowLoop us k i (pre ++ List.replicate k 0 ++ post)
        = some (pre ++ ((us.drop i).take k).map (fun u => u % 256) ++ post) := by
  intro k
  induction k with
  | zero => intro i pre post _ _; simp [narrowLoop]
  | succ k ih =>
    intro i pre post hpre hle
    have hi : i < us.length := by omega
    have hset : (pre ++ List.replicate (k + 1) 0 ++ post).set i (us[i] % 256)
        = (pre ++ [us[i] % 256]) ++ List.replicate k 0 ++ post := by
      rw [List.append_assoc, List.set_append_right _ _ (by omega)]
      simp [hpre, List.replicate_succ]
    rw [narrowLoop, List.getElem?_eq_getElem hi]
    simp only []
    rw [hset, ih (i + 1) (pre ++ [us[i] % 256]) post (by simp [hpre]) (by omega)]
    rw [List.drop_eq_getElem_cons hi, List.take_succ_cons, List.map_cons]
    simp only [List.append_assoc, List.singleton_append]

/-- Closed form of `unicode2ascii` on a non-empty prefix of the array. -/
theorem unicode2ascii_eq (us : List Int) (n : Int) (h1 : 1 ≤ n) (h2 : n ≤ us.length) :
    unicode2ascii us n = some ((us.take n.toNat).map (fun u => u % 256) ++ [0]) := by
  have hn : n.toNat ≤ us.length := by omega
  have := narrowLoop_spec us n.toNat 0 [] [0] rfl (by omega)
  simp only [List.nil_append, List.drop_zero] at this
  unfold unicode2ascii
  rw [if_pos (by omega), List.replicate_succ', this]
  simp only []
  rw [List.set_append_right _ _ (by simp [hn])]
  simp [hn]

/-- C7: for code units `us` and a length `1 ≤ n ≤ us.length`, `unicode2ascii`
returns an array of `n + 1` bytes whose byte `n` is the terminator `0` and whose
byte `i < n` is `us[i] mod 256`, the low eight bits of code unit `i`. -/
theorem unicode2ascii_narrows (us : List Int) (n : Nat) (h1 : 1 ≤ n) (h2 : n ≤ us.length) :
    ∃ s : List Int, unicode2ascii us n = some s ∧ s.length = n + 1 ∧ s[n]? = some 0 ∧
      ∀ i : Nat, i < n → s[i]? = us[i]?.map (fun u => u % 256) := by
  refine ⟨_, unicode2ascii_eq us n (by exact_mod_cast h1) (by exact_mod_cast h2), ?_, ?_, ?_⟩
  · simp [h2]
  · rw [List.getElem?_append_right (by simp [h2])]
    simp [h2]
  · intro i hi
    rw [List.getElem?_append_left (by simp [h2, hi])]
    simp [List.getElem?_take, hi]

theorem unicode2ascii_narrows_witness :
    ∃ s : List Int, unicode2ascii [321, 98, 99] (2 : Nat) = some s ∧ s.length = 2 + 1 ∧
      s[2]? = some 0 ∧
      ∀ i : Nat, i < 2 → s[i]? = ([321, 98, 99] : List Int)[i]?.map (fun u => u % 256) :=
  unicode2ascii_narrows [321, 98, 99] 2 (by decide) (by decide)

/-! ## Copying a file -/

set_option maxRecDepth 1000000 in
theorem readGeometry_docsImage : readGeometry docsImage = some smallVolume := by decide

set_option maxRecDepth 1000000 in
/-- C1 (the code at the failing input): extracting the 10-byte file `note.txt`
(cluster 4 of the example volume) writes a whole cluster of 512 bytes; its first 10
bytes are the file content, the rest is whatever follows in the cluster. -/
theorem getFile_writes_whole_cluster :
    (getFile smallVolume docsImage 1 4 10).map List.length = some 512 ∧
    (getFile smallVolume docsImage 1 4 10).map (fun out => out.take 10)
      = some (ascii "hello!!!!\n") ∧
    getFile smallVolume docsImage 1 4 10 ≠ some (ascii "hello!!!!\n") := by
  decide


/-! ## Free space -/

set_option maxRecDepth 1000000 in
theorem countOffBits_fin : ∀ b : Fin 256, countOffBits (b.val : Int) = zeroBits (b.val : Int) := by
  decide

theorem countOffBits_eq_zeroBits (b : Int) (h0 : 0 ≤ b) (h1 : b < 256) :
    countOffBits b = zeroBits b := by
  have h := countOffBits_fin ⟨b.toNat, by omega⟩
  have hb : ((b.toNat : Nat) : Int) = b := Int.toNat_of_nonneg h0
  simpa [hb] using h

theorem zeroBits_nonneg (b : Int) : 0 ≤ zeroBits b := by
  unfold zeroBits; exact Int.natCast_nonneg _

theorem zeroBitsIn_nonneg (img : Image) (n : Nat) : ∀ p : Int, 0 ≤ zeroBitsIn img p n := by
  induction n with
  | zero => intro p; exact le_refl _
  | succ k ih => intro p; exact add_nonneg (zeroBits_nonneg _) (ih _)

theorem getEmptysLoop_spec (g : Geometry) (img : Image) (hB : bytesPerCluster g ≠ 0) (n : Nat) :
    ∀ (pos cur e : Int), 0 ≤ pos → pos + n ≤ img.size →
      getEmptysLoop g img n pos cur e = some (e + zeroBitsIn img pos n) := by
  induction n with
  | zero => intro pos cur e _ _; simp [getEmptysLoop, zeroBitsIn]
  | succ k ih =>
    intro pos cur e h0 h1
    have hlt : pos < img.size := by push_cast at h1; omega
    have hcount := countOffBits_eq_zeroBits (img.byte pos % 256) (by omega) (by omega)
    rw [getEmptysLoop, read8_of_lt img pos h0 hlt]
    simp only []
    rw [if_neg (fun h => hB h.symm), ih (pos + 1) cur _ (by omega) (by push_cast at h1; omega),
      hcount, zeroBitsIn]
    congr 1; ring

theorem zeroBitsIn_all_set (img : Image) (n : Nat) :
    ∀ p : Int, (∀ k : Int, 0 ≤ k → k < n → img.byte (p + k) % 256 = 255) →
      zeroBitsIn img p n = 0 := by
  induction n with
  | zero => intro p _; rfl
  | succ k ih =>
    intro p h
    have h0 := h 0 (le_refl 0) (by push_cast; omega)
    simp only [add_zero] at h0
    have hk : zeroBitsIn img (p + 1) k = 0 := by
      apply ih
      intro j hj0 hj1
      have := h (1 + j) (by omega) (by push_cast; omega)
      rwa [← add_assoc] at this
    rw [zeroBitsIn, h0, hk]
    decide

theorem zeroBitsIn_blank (n : Nat) : ∀ p : Int, zeroBitsIn blankImage p n = 8 * n := by
  induction n with
  | zero => intro p; rfl
  | succ k ih =>
    intro p
    rw [zeroBitsIn, ih]
    have hb : blankImage.byte p % 256 = 0 := by simp [blankImage]
    have hz : zeroBits 0 = 8 := by decide
    rw [hb, hz]; push_cast; ring

/-- The value of `freeSpaceKB` in terms of the zero bits scanned. -/
theorem getEmptys_eq (g : Geometry) (img : Image) (pos0 offset cur start : Int)
    (hcc : 0 ≤ g.clusterCount) (hcc2 : g.clusterCount < 4294967296)
    (hB : bytesPerCluster g ≠ 0)
    (hstart : start = if 0 ≤ offset then offset else pos0) (h0 : 0 ≤ start)
    (hin : start + g.clusterCount / 8 ≤ img.size) :
    getEmptys g img pos0 offset cur =
      some (wrapI32 (Int.tdiv (wrapI64 (wrapI64
        (zeroBitsIn img start (g.clusterCount / 8).toNat * g.sectorsPerCluster)
          * g.bytesPerSector)) 1024)) := by
  have hn : wrapI32 (g.clusterCount / 8) = g.clusterCount / 8 :=
    wrapI32_of_range _ (by omega) (by omega)
  have hcast : (((g.clusterCount / 8).toNat : Nat) : Int) = g.clusterCount / 8 :=
    Int.toNat_of_nonneg (by omega)
  unfold getEmptys
  rw [hn, ← hstart, getEmptysLoop_spec g img hB _ start cur 0 h0 (by rw [hcast]; exact hin)]
  simp

/-- C10 (as stated, refuted): on a blank 2 TiB volume with 65536 clusters of 32 MiB
the scan finds `Z = 65536` zero bits, so the quotient
`Z * sectorsPerCluster * bytesPerSector / 1024` is `2 ^ 31`; `freeSpaceKB`, an
`int`, receives `-2 ^ 31`. -/
theorem getEmptys_freeSpaceKB_overflows :
    getEmptys wideVolume blankImage 0 67108864 2 = some (-2147483648) ∧
    zeroBitsIn blankImage 67108864 (wideVolume.clusterCount / 8).toNat = 65536 ∧
    (65536 * wideVolume.sectorsPerCluster * wideVolume.bytesPerSector) / 1024 = 2147483648 ∧
    getEmptys wideVolume blankImage 0 67108864 2 ≠
      some (zeroBitsIn blankImage 67108864 (wideVolume.clusterCount / 8).toNat
        * wideVolume.sectorsPerCluster * wideVolume.bytesPerSector / 1024) := by
  have hz : zeroBitsIn blankImage 67108864 (wideVolume.clusterCount / 8).toNat = 65536 := by
    rw [zeroBitsIn_blank]; decide
  have hrun : getEmptys wideVolume blankImage 0 67108864 2 = some (-2147483648) := by
    rw [getEmptys_eq wideVolume blankImage 0 67108864 2 67108864 (by decide) (by decide)
      (by decide) (by decide) (by decide) (by decide), hz]
    decide
  refine ⟨hrun, hz, by decide, ?_⟩
  rw [hrun, hz]
  decide

/-- C10 (amended): let `Z` be the number of zero bits among the `clusterCount / 8`
bytes that `getEmptys` scans (from `offset`, or from the current position when
`lseek` rejects a negative `offset`), all of them inside the image, the sector and
cluster sizes being positive with a cluster size that fits an `int`.  If the
truncating quotient `Z * sectorsPerCluster * bytesPerSector / 1024` is below
`2 ^ 31`, `freeSpaceKB` is set to it; and when every scanned byte is `0xFF`,
`freeSpaceKB` is `0`. -/
theorem getEmptys_freeSpaceKB (g : Geometry) (img : Image) (pos0 offset cur start : Int)
    (hcc : 0 ≤ g.clusterCount) (hcc2 : g.clusterCount < 4294967296)
    (hs : 0 < g.sectorsPerCluster) (hb : 0 < g.bytesPerSector)
    (hB : g.bytesPerSector * g.sectorsPerCluster < 2147483648)
    (hstart : start = if 0 ≤ offset then offset else pos0) (h0 : 0 ≤ start)
    (hin : start + g.clusterCount / 8 ≤ img.size) :
    (zeroBitsIn img start (g.clusterCount / 8).toNat * g.sectorsPerCluster * g.bytesPerSector
        / 1024 < 2147483648 →
      getEmptys g img pos0 offset cur =
        some (zeroBitsIn img start (g.clusterCount / 8).toNat * g.sectorsPerCluster
          * g.bytesPerSector / 1024)) ∧
    ((∀ k : Int, 0 ≤ k → k < g.clusterCount / 8 → img.byte (start + k) % 256 = 255) →
      getEmptys g img pos0 offset cur = some 0) := by
  have hBpos : 0 < g.bytesPerSector * g.sectorsPerCluster := mul_pos hb hs
  have hB0 : bytesPerCluster g ≠ 0 := by
    unfold bytesPerCluster
    rw [wrapI32_of_range _ (by omega) hB]; omega
  have heq := getEmptys_eq g img pos0 offset cur start hcc hcc2 hB0 hstart h0 hin
  have hcast : (((g.clusterCount / 8).toNat : Nat) : Int) = g.clusterCount / 8 :=
    Int.toNat_of_nonneg (by omega)
  constructor
  · intro hq
    have hZ := zeroBitsIn_nonneg img (g.clusterCount / 8).toNat start
    generalize zeroBitsIn img start (g.clusterCount / 8).toNat = Z at *
    have hP : 0 ≤ Z * g.sectorsPerCluster := mul_nonneg hZ (le_of_lt hs)
    have hQ : 0 ≤ Z * g.sectorsPerCluster * g.bytesPerSector := mul_nonneg hP (le_of_lt hb)
    have hPQ : Z * g.sectorsPerCluster ≤ Z * g.sectorsPerCluster * g.bytesPerSector := by
      nlinarith
    have hQlt : Z * g.sectorsPerCluster * g.bytesPerSector < 2199023255552 := by omega
    have w1 : wrapI64 (Z * g.sectorsPerCluster) = Z * g.sectorsPerCluster := by
      unfold wrapI64; omega
    have w2 : wrapI64 (Z * g.sectorsPerCluster * g.bytesPerSector)
        = Z * g.sectorsPerCluster * g.bytesPerSector := by
      unfold wrapI64; omega
    rw [heq, w1, w2, Int.tdiv_eq_ediv hQ (by decide), wrapI32_of_range _ (by omega) hq]
  · intro hall
    have hz : zeroBitsIn img start (g.clusterCount / 8).toNat = 0 :=
      zeroBitsIn_all_set img _ start (by rw [hcast]; exact hall)
    rw [heq, hz]
    simp [wrapI64, wrapI32]

set_option maxRecDepth 1000000 in
theorem getEmptys_freeSpaceKB_witness :
    (zeroBitsIn docsImage 2560 (smallVolume.clusterCount / 8).toNat
        * smallVolume.sectorsPerCluster * smallVolume.bytesPerSector / 1024 < 2147483648 →
      getEmptys smallVolume docsImage 0 2560 2 =
        some (zeroBitsIn docsImage 2560 (smallVolume.clusterCount / 8).toNat
          * smallVolume.sectorsPerCluster * smallVolume.bytesPerSector / 1024)) ∧
    ((∀ k : Int, 0 ≤ k → k < smallVolume.clusterCount / 8 →
        docsImage.byte (2560 + k) % 256 = 255) →
      getEmptys smallVolume docsImage 0 2560 2 = some 0) :=
  getEmptys_freeSpaceKB smallVolume docsImage 0 2560 2 2560 (by decide) (by decide)
    (by decide) (by decide) (by decide) (by decide) (by decide) (by decide)

/-! ## Entry sets -/

theorem land_16_iff_testBit (n : Nat) : (n &&& 16 = 16) ↔ n.testBit 4 = true := by
  have h := Nat.and_two_pow n 4
  norm_num at h
  rw [h]
  cases n.testBit 4 <;> simp

theorem readUnits_of_le (img : Image) (n : Nat) :
    ∀ p : Int, 0 ≤ p → p + 2 * n ≤ img.size → img.readUnits p n = some (unitsAt img p n) := by
  induction n with
  | zero => intro p _ _; rfl
  | succ k ih =>
    intro p h0 h1
    have hk := ih (p + 2) (by omega) (by push_cast at h1; omega)
    have h2 := readLE_of_le img 2 p h0 (by push_cast at h1 ⊢; omega)
    rw [Image.readUnits, h2, hk, unitsAt]

theorem readUnits_slot (img : Image) (q : Int) (h0 : 0 ≤ q) (h1 : q + 32 ≤ img.size) :
    img.readUnits (q + 2) 15 = some (slotUnits img q) :=
  readUnits_of_le img 15 (q + 2) (by omega) (by push_cast; omega)

theorem unitsAt_length (img : Image) (n : Nat) : ∀ p : Int, (unitsAt img p n).length = n := by
  induction n with
  | zero => intro p; rfl
  | succ k ih => intro p; simp [unitsAt, ih]

theorem slotUnits_length (img : Image) (q : Int) : (slotUnits img q).length = 15 :=
  unitsAt_length img 15 _

theorem writeUnits_length_le (buf : List Int) (off : Nat) (us : List Int) :
    off + us.length ≤ (writeUnits buf off us).length := by
  unfold writeUnits
  simp only [List.length_append, List.length_take, List.length_replicate, List.length_drop]
  omega

theorem writeUnits_writeUnits (buf : List Int) (off : Nat) (us vs : List Int) :
    writeUnits (writeUnits buf off us) (off + us.length) vs = writeUnits buf off (us ++ vs) := by
  have hlen : ((buf ++ List.replicate (off - buf.length) 0).take off).length = off := by
    simp only [List.length_take, List.length_append, List.length_replicate]; omega
  have hw := writeUnits_length_le buf off us
  generalize hP : (buf ++ List.replicate (off - buf.length) 0).take off = P at hlen
  have hW : writeUnits buf off us = (P ++ us) ++ buf.drop (off + us.length) := by
    unfold writeUnits; rw [hP]
  have hPu : (P ++ us).length = off + us.length := by simp [hlen]
  have e1 : ∀ pad : List Int,
      ((P ++ us) ++ buf.drop (off + us.length) ++ pad).take (off + us.length) = P ++ us := by
    intro pad
    rw [List.append_assoc]
    exact List.take_left' hPu
  have e2 : ((P ++ us) ++ buf.drop (off + us.length)).drop (off + us.length + vs.length)
      = buf.drop (off + (us ++ vs).length) := by
    rw [← hPu, List.drop_append, List.drop_drop, hPu]
    congr 1
    simp; omega
  rw [hW]
  unfold writeUnits
  rw [e1, e2, hP]
  simp only [List.append_assoc]

theorem writeUnits_zero (buf us : List Int) :
    writeUnits buf 0 us = us ++ buf.drop us.length := by
  simp [writeUnits]

theorem writeUnits_nil (buf : List Int) (off : Nat) (h : off ≤ buf.length) :
    writeUnits buf off [] = buf := by
  unfold writeUnits
  rw [show off - buf.length = 0 by omega]
  simp
theorem goToNextCluster_of_ne (g : Geometry) (img : Image) (c : Cursor)
    (h : c.bytesReadInCluster ≠ bytesPerCluster g) : goToNextCluster g img c = some c := by
  unfold goToNextCluster; rw [if_neg h]

theorem advance_of_ne (g : Geometry) (img : Image) (c : Cursor)
    (h : c.bytesReadInCluster + 32 ≠ bytesPerCluster g) :
    advance g img c = some { pos := c.pos + 32, currCluster := c.currCluster,
                             bytesReadInCluster := c.bytesReadInCluster + 32 } := by
  unfold advance; exact goToNextCluster_of_ne g img _ h

/-- What `goToNextCluster` returns is consistent again, and its byte counter differs
from the cluster size. -/
theorem goToNextCluster_ok (g : Geometry) (img : Image) (c c1 : Cursor)
    (hB : bytesPerCluster g ≠ 0) (hok : c.Ok g) (h : goToNextCluster g img c = some c1) :
    c1.Ok g ∧ c1.bytesReadInCluster ≠ bytesPerCluster g := by
  unfold goToNextCluster at h
  split at h
  · cases hn : nextCluster g img (wrapU32 c.currCluster) with
    | none => rw [hn] at h; simp at h
    | some next =>
      rw [hn] at h
      simp only [Option.some.injEq] at h
      subst h
      exact ⟨by simp [Cursor.Ok], fun h0 => hB h0.symm⟩
  · rename_i hne
    simp only [Option.some.injEq] at h
    subst h
    exact ⟨hok, hne⟩

theorem advance_ok (g : Geometry) (img : Image) (c c1 : Cursor)
    (hB : bytesPerCluster g ≠ 0) (hok : c.Ok g) (h : advance g img c = some c1) :
    c1.Ok g ∧ c1.bytesReadInCluster ≠ bytesPerCluster g := by
  apply goToNextCluster_ok g img _ c1 hB _ h
  unfold Cursor.Ok at hok ⊢
  simp only []
  omega

/-- One step of `nameSlots`, read backwards. -/
theorem nameSlots_succ_inv (g : Geometry) (img : Image) (n : Nat) (c cN : Cursor)
    (us : List Int) (h : nameSlots g img (n + 1) c = some (us, cN)) :
    ∃ c1 us1, (0 ≤ c.pos ∧ c.pos + 32 ≤ img.size) ∧ advance g img c = some c1 ∧
      nameSlots g img n c1 = some (us1, cN) ∧ us = slotUnits img c.pos ++ us1 := by
  rw [nameSlots] at h
  split at h
  · rename_i hr
    cases hadv : advance g img c with
    | none => rw [hadv] at h; simp at h
    | some c1 =>
      rw [hadv] at h
      simp only [] at h
      cases hrec : nameSlots g img n c1 with
      | none => rw [hrec] at h; simp at h
      | some r =>
        obtain ⟨us1, c2⟩ := r
        rw [hrec] at h
        simp only [Option.some.injEq, Prod.mk.injEq] at h
        obtain ⟨h1, h2⟩ := h
        subst h2
        exact ⟨c1, us1, hr, rfl, hrec, h1.symm⟩
  · simp at h

/-- The name loop of the source reads exactly the name slots that follow each other
along the cluster chain. -/
theorem nameLoop_eq_nameSlots (g : Geometry) (img : Image) (hB : bytesPerCluster g ≠ 0)
    (n : Nat) :
    ∀ (i : Nat) (c cN : Cursor) (buf us : List Int),
      nameSlots g img n c = some (us, cN) → 15 * (i + 1) ≤ buf.length →
        nameLoop g img n i c buf = some (cN, writeUnits buf (15 * (i + 1)) us) ∧
        us.length = 15 * n ∧ (c.Ok g → cN.Ok g) ∧
        (1 ≤ n → c.Ok g → cN.bytesReadInCluster ≠ bytesPerCluster g) := by
  induction n with
  | zero =>
    intro i c cN buf us h hlen
    simp only [nameSlots, Option.some.injEq, Prod.mk.injEq] at h
    obtain ⟨rfl, rfl⟩ := h
    refine ⟨?_, rfl, fun h => h, fun h => absurd h (by omega)⟩
    rw [nameLoop, writeUnits_nil _ _ hlen]
  | succ k ih =>
    intro i c cN buf us h hlen
    obtain ⟨c1, us1, hr, hadv, hrec, rfl⟩ := nameSlots_succ_inv g img k c cN us h
    have hsl := slotUnits_length img c.pos
    have hw := writeUnits_length_le buf (15 * (i + 1)) (slotUnits img c.pos)
    obtain ⟨hloop, hlen1, hok1, hne1⟩ :=
      ih (i + 1) c1 cN (writeUnits buf (15 * (i + 1)) (slotUnits img c.pos)) us1 hrec
        (by rw [hsl] at hw; omega)
    refine ⟨?_, by simp [hsl, hlen1]; ring, ?_, ?_⟩
    · rw [nameLoop, readUnits_slot img c.pos hr.1 hr.2]
      simp only []
      rw [hadv]
      simp only []
      rw [hloop, show 15 * (i + 1 + 1) = 15 * (i + 1) + (slotUnits img c.pos).length by
        rw [hsl]; ring, writeUnits_writeUnits]
    · intro hok
      exact hok1 (advance_ok g img c c1 hB hok hadv).1
    · intro _ hok
      have hc1 := advance_ok g img c c1 hB hok hadv
      rcases Nat.eq_zero_or_pos k with hk | hk
      · subst hk
        simp only [nameSlots, Option.some.injEq, Prod.mk.injEq] at hrec
        obtain ⟨_, rfl⟩ := hrec
        exact hc1.2
      · exact hne1 hk hc1.1
/-- The entry-set decoder in terms of the slots along the cluster chain: primary
slot at `c`, stream extension at `c1`, the name slots from `c2` on, `cN` behind the
set.  The premise `hslip` excludes the one place where the source does not run the
block "go to next cluster": directly behind the first name slot of a set that has
further name slots. -/
theorem readEntrySet_spec (isGet : Bool) (g : Geometry) (img : Image) (c c1 c2 cN : Cursor)
    (buf us : List Int) (hB : bytesPerCluster g ≠ 0) (hok : c.Ok g)
    (h0 : 0 ≤ c.pos) (h1 : c.pos + 32 ≤ img.size)
    (ha : advance g img c = some c1) (h10 : 0 ≤ c1.pos) (h11 : c1.pos + 32 ≤ img.size)
    (ha1 : advance g img c1 = some c2)
    (hn : nameSlots g img ((img.byte (c.pos + 1) % 256 - 2).toNat + 1) c2 = some (us, cN))
    (hslip : 3 ≤ img.byte (c.pos + 1) % 256 →
      c2.bytesReadInCluster + 32 ≠ bytesPerCluster g) :
    ∃ c4 : Cursor,
      readEntrySet isGet g img c buf = some (
        { secondaryCount := img.byte (c.pos + 1) % 256,
          directory := (leValue img (c.pos + 4) 2).toNat.testBit 4,
          nameLength := img.byte (c1.pos + 3) % 256,
          nextDirCluster := leValue img (c1.pos + 20) 4,
          length := if isGet then leValue img (c1.pos + 24) 8 else 0 },
        c4, us ++ buf.drop us.length) ∧
      goToNextCluster g img
        { pos := findOffsetToCluster g c4.currCluster + c4.bytesReadInCluster,
          currCluster := c4.currCluster,
          bytesReadInCluster := c4.bytesReadInCluster } = some cN ∧
      us.length = 15 * ((img.byte (c.pos + 1) % 256 - 2).toNat + 1) ∧ cN.Ok g := by
  have hok1 := (advance_ok g img c c1 hB hok ha).1
  have hok2 := (advance_ok g img c1 c2 hB hok1 ha1).1
  obtain ⟨c3, us1, hr2, hadv2, hrec, hus⟩ := nameSlots_succ_inv g img _ c2 cN us hn
  have hok3 := (advance_ok g img c2 c3 hB hok2 hadv2)
  have hsl := slotUnits_length img c2.pos
  have hpos2 : 2 + findOffsetToCluster g c2.currCluster + c2.bytesReadInCluster = c2.pos + 2 := by
    unfold Cursor.Ok at hok2; omega
  have hdir : decide ((leValue img (c.pos + 4) 2).toNat &&& 16 = 16)
      = (leValue img (c.pos + 4) 2).toNat.testBit 4 := by
    rcases hb : (leValue img (c.pos + 4) 2).toNat.testBit 4 with _ | _
    · exact decide_eq_false (fun h => by rw [(land_16_iff_testBit _).1 h] at hb; cases hb)
    · exact decide_eq_true ((land_16_iff_testBit _).2 hb)
  have hlenread : (if isGet then img.readLE (c1.pos + 24) 8 else some 0)
      = some (if isGet then leValue img (c1.pos + 24) 8 else 0) := by
    cases isGet
    · rfl
    · simp only [if_true]
      exact readLE_of_le img 8 _ (by omega) (by push_cast; omega)
  have hunfold : ∀ r, nameLoop g img (img.byte (c.pos + 1) % 256 - 2).toNat 0
        { pos := findOffsetToCluster g c2.currCluster + (c2.bytesReadInCluster + 32),
          currCluster := c2.currCluster, bytesReadInCluster := c2.bytesReadInCluster + 32 }
        (writeUnits buf 0 (slotUnits img c2.pos)) = some r →
      readEntrySet isGet g img c buf = some (
        { secondaryCount := img.byte (c.pos + 1) % 256,
          directory := (leValue img (c.pos + 4) 2).toNat.testBit 4,
          nameLength := img.byte (c1.pos + 3) % 256,
          nextDirCluster := leValue img (c1.pos + 20) 4,
          length := if isGet then leValue img (c1.pos + 24) 8 else 0 }, r.1, r.2) := by
    intro r hr
    unfold readEntrySet
    rw [read8_of_lt img (c.pos + 1) (by omega) (by omega),
      readLE_of_le img 2 (c.pos + 4) (by omega) (by push_cast; omega)]
    simp only []
    rw [ha]
    simp only []
    rw [read8_of_lt img (c1.pos + 3) (by omega) (by omega),
      readLE_of_le img 4 (c1.pos + 20) (by omega) (by push_cast; omega), hlenread]
    simp only []
    rw [ha1]
    simp only []
    rw [hpos2, readUnits_slot img c2.pos hr2.1 hr2.2]
    simp only []
    rw [hr, hdir]
  have hc3raw : Cursor.mk (findOffsetToCluster g c2.currCluster + (c2.bytesReadInCluster + 32))
        c2.currCluster (c2.bytesReadInCluster + 32)
      = Cursor.mk (c2.pos + 32) c2.currCluster (c2.bytesReadInCluster + 32) := by
    unfold Cursor.Ok at hok2; rw [hok2]; congr 1; ring
  rcases Nat.eq_zero_or_pos (img.byte (c.pos + 1) % 256 - 2).toNat with hk | hk
  · -- a single name slot: the loop does not run
    rw [hk] at hrec hunfold ⊢
    simp only [nameSlots, Option.some.injEq, Prod.mk.injEq] at hrec
    obtain ⟨rfl, rfl⟩ := hrec
    subst hus
    refine ⟨Cursor.mk (findOffsetToCluster g c2.currCluster + (c2.bytesReadInCluster + 32))
      c2.currCluster (c2.bytesReadInCluster + 32), ?_, ?_, by simp [hsl], hok3.1⟩
    · rw [hunfold _ (by rw [nameLoop]), writeUnits_zero]
      simp
    · simp only []
      rw [hc3raw]
      exact hadv2
  · -- further name slots
    have hsc : 3 ≤ img.byte (c.pos + 1) % 256 := by omega
    have hadv2' := advance_of_ne g img c2 (hslip hsc)
    rw [hadv2] at hadv2'
    simp only [Option.some.injEq] at hadv2'
    obtain ⟨hloop, hlen1, hokN, hneN⟩ := nameLoop_eq_nameSlots g img hB _ 0 c3 cN
      (writeUnits buf 0 (slotUnits img c2.pos)) us1 hrec
      (by have := writeUnits_length_le buf 0 (slotUnits img c2.pos); rw [hsl] at this; omega)
    subst hus
    refine ⟨cN, ?_, ?_, by simp [hsl, hlen1]; ring, hokN hok3.1⟩
    · rw [hc3raw, ← hadv2'] at hunfold
      rw [hunfold _ hloop]
      simp only []
      rw [show 15 * (0 + 1) = 0 + (slotUnits img c2.pos).length by rw [hsl],
        writeUnits_writeUnits, writeUnits_zero]
    · have hN := hokN hok3.1
      unfold Cursor.Ok at hN
      rw [← hN]
      exact goToNextCluster_of_ne g img cN (hneN hk hok3.1)

/-! ## Entry sets stored inside one cluster -/

theorem nextCluster_of_le (g : Geometry) (img : Image) (cur : Int)
    (h : fatEntryPos g cur + 4 ≤ img.size) :
    nextCluster g img cur = some (leValue img (fatEntryPos g cur) 4) :=
  readLE_of_le img 4 _ (fatEntryPos_nonneg g cur) (by push_cast; omega)

/-- Name slots that lie in the current cluster follow each other physically. -/
theorem nameSlots_in_cluster (g : Geometry) (img : Image) (n : Nat) :
    ∀ c : Cursor, c.bytesReadInCluster + 32 * n ≤ bytesPerCluster g → 0 ≤ c.pos →
      c.pos + 32 * n ≤ img.size → fatEntryPos g (wrapU32 c.currCluster) + 4 ≤ img.size →
      ∃ cN, nameSlots g img n c = some (nameUnits img c.pos n, cN) := by
  induction n with
  | zero => intro c _ _ _ _; exact ⟨c, rfl⟩
  | succ k ih =>
    intro c hin h0 himg hfat
    push_cast at hin himg
    rw [nameSlots, if_pos ⟨h0, by omega⟩]
    by_cases hend : c.bytesReadInCluster + 32 = bytesPerCluster g
    · have hk : k = 0 := by omega
      subst hk
      have hadv : advance g img c = some
          (Cursor.mk
            (findOffsetToCluster g (wrapI32 (leValue img (fatEntryPos g (wrapU32 c.currCluster)) 4)))
            (wrapI32 (leValue img (fatEntryPos g (wrapU32 c.currCluster)) 4)) 0) := by
        unfold advance goToNextCluster
        simp only []
        rw [if_pos hend, nextCluster_of_le g img _ hfat]
      rw [hadv]
      simp only [nameSlots, nameUnits]
      exact ⟨_, rfl⟩
    · rw [advance_of_ne g img c hend]
      simp only []
      obtain ⟨cN, hN⟩ := ih (Cursor.mk (c.pos + 32) c.currCluster (c.bytesReadInCluster + 32))
        (by simp only []; omega) (by simp only []; omega) (by simp only []; omega) hfat
      refine ⟨cN, ?_⟩
      rw [hN]
      simp only [nameUnits]

theorem unitsAt_getElem? (img : Image) (n : Nat) :
    ∀ (p : Int) (i : Nat), i < n → (unitsAt img p n)[i]? = some (leValue img (p + 2 * i) 2) := by
  induction n with
  | zero => intro p i h; omega
  | succ k ih =>
    intro p i h
    cases i with
    | zero => simp [unitsAt]
    | succ j =>
      rw [unitsAt, List.getElem?_cons_succ, ih (p + 2) j (by omega)]
      congr 2; push_cast; ring

theorem nameUnits_length (img : Image) (n : Nat) :
    ∀ q : Int, (nameUnits img q n).length = 15 * n := by
  induction n with
  | zero => intro q; rfl
  | succ k ih => intro q; simp [nameUnits, ih, slotUnits_length]; ring

/-- Code unit `i` of the concatenated name slots is unit `i mod 15` of slot
`i / 15`. -/
theorem nameUnits_getElem? (img : Image) (n : Nat) :
    ∀ (q : Int) (i : Nat), i < 15 * n →
      (nameUnits img q n)[i]? =
        some (leValue img (q + 32 * ((i / 15 : Nat) : Int) + 2 + 2 * ((i % 15 : Nat) : Int)) 2) := by
  induction n with
  | zero => intro q i h; omega
  | succ k ih =>
    intro q i h
    rw [nameUnits]
    by_cases hi : i < 15
    · rw [List.getElem?_append_left (by rw [slotUnits_length]; exact hi)]
      unfold slotUnits
      rw [unitsAt_getElem? img 15 _ i hi, Nat.div_eq_of_lt hi, Nat.mod_eq_of_lt hi]
      congr 2; push_cast; ring
    · rw [List.getElem?_append_right (by rw [slotUnits_length]; omega), slotUnits_length,
        ih (q + 32) (i - 15) (by omega)]
      have h1 : (i - 15) / 15 = i / 15 - 1 := by omega
      have h2 : (i - 15) % 15 = i % 15 := by omega
      have h3 : 1 ≤ i / 15 := by omega
      rw [h1, h2]
      congr 2
      push_cast [h3]
      ring

/-- The decoder on an entry set whose slots (primary, stream extension and the
name slots it reads) lie inside the current cluster and inside the image. -/
theorem readEntrySet_in_cluster (isGet : Bool) (g : Geometry) (img : Image) (c : Cursor)
    (buf : List Int) (k : Nat) (hk : k = (img.byte (c.pos + 1) % 256 - 2).toNat)
    (hok : c.Ok g) (hb : 0 ≤ c.bytesReadInCluster)
    (hin : c.bytesReadInCluster + 32 * (3 + (k : Int)) ≤ bytesPerCluster g)
    (himg : c.pos + 32 * (3 + (k : Int)) ≤ img.size)
    (hfat : fatEntryPos g (wrapU32 c.currCluster) + 4 ≤ img.size) :
    ∃ c4 : Cursor,
      readEntrySet isGet g img c buf = some (
        { secondaryCount := img.byte (c.pos + 1) % 256,
          directory := (leValue img (c.pos + 4) 2).toNat.testBit 4,
          nameLength := img.byte (c.pos + 32 + 3) % 256,
          nextDirCluster := leValue img (c.pos + 32 + 20) 4,
          length := if isGet then leValue img (c.pos + 32 + 24) 8 else 0 },
        c4, nameUnits img (c.pos + 64) (k + 1) ++ buf.drop (15 * (k + 1))) := by
  have hp0 : 0 ≤ c.pos := by
    have := findOffsetToCluster_nonneg g c.currCluster
    unfold Cursor.Ok at hok; omega
  have hB : bytesPerCluster g ≠ 0 := by omega
  have ha := advance_of_ne g img c (by omega)
  have ha1 := advance_of_ne g img (Cursor.mk (c.pos + 32) c.currCluster (c.bytesReadInCluster + 32))
    (by simp only []; omega)
  simp only [] at ha1
  obtain ⟨cN, hN⟩ := nameSlots_in_cluster g img (k + 1)
    (Cursor.mk (c.pos + 32 + 32) c.currCluster (c.bytesReadInCluster + 32 + 32))
    (by simp only []; push_cast; omega) (by simp only []; omega)
    (by simp only []; push_cast; omega) hfat
  simp only [] at hN
  obtain ⟨c4, h4, -, hlen, -⟩ := readEntrySet_spec isGet g img c _ _ cN buf _ hB hok hp0
    (by omega) ha (by simp only []; omega) (by simp only []; omega) ha1
    (by rw [← hk]; exact hN)
    (by intro h3; simp only []; have : 1 ≤ k := by omega
        omega)
  refine ⟨c4, ?_⟩
  rw [h4, nameUnits_length]
  simp only [show c.pos + 32 + 32 = c.pos + 64 by ring]

/-- Inside the name array: for an entry set headed by a 0x85 slot at the cursor with
`secondaryCount ≤ 18` (at most 17 name slots, so that every store of the name loop
stays below index 255), whose slots (the primary slot, the stream extension and the
name slots the decoder reads, i.e. the whole set when `secondaryCount ≥ 2`) lie
inside the current cluster and the image, the decoder of `listRecurse`
(`isGet = false`) and `get` (`isGet = true`) yields: `directory` is true exactly
when bit 4 of the little-endian 16-bit field at bytes 4..5 of the primary slot is
set; `nameLength` is byte 3 of the following slot; `nextDirCluster` (the first
cluster) is the little-endian 32-bit field at its bytes 20..23; in `get`, `length`
is the little-endian 64-bit field at its bytes 24..31; and the name array keeps its
255 elements. -/
theorem readEntrySet_fields_in_bounds (isGet : Bool) (g : Geometry) (img : Image)
    (c : Cursor) (buf : List Int) (hok : c.Ok g) (hb : 0 ≤ c.bytesReadInCluster)
    (_htype : img.byte c.pos % 256 = 133) (hsc18 : img.byte (c.pos + 1) % 256 ≤ 18)
    (hbuf : buf.length = 255)
    (hin : c.bytesReadInCluster + 32 * (1 + max (img.byte (c.pos + 1) % 256) 2)
      ≤ bytesPerCluster g)
    (himg : c.pos + 32 * (1 + max (img.byte (c.pos + 1) % 256) 2) ≤ img.size)
    (hfat : fatEntryPos g (wrapU32 c.currCluster) + 4 ≤ img.size) :
    ∃ (e : EntrySet) (c4 : Cursor) (buf4 : List Int),
      readEntrySet isGet g img c buf = some (e, c4, buf4) ∧
      (e.directory = true ↔ (leValue img (c.pos + 4) 2).toNat.testBit 4 = true) ∧
      e.nameLength = img.byte (c.pos + 32 + 3) % 256 ∧
      e.nextDirCluster = leValue img (c.pos + 32 + 20) 4 ∧
      (isGet = true → e.length = leValue img (c.pos + 32 + 24) 8) ∧
      buf4.length = 255 := by
  obtain ⟨c4, h4⟩ := readEntrySet_in_cluster isGet g img c buf
    (img.byte (c.pos + 1) % 256 - 2).toNat rfl hok hb (by omega) (by omega) hfat
  refine ⟨_, c4, _, h4, Iff.rfl, rfl, rfl, ?_, ?_⟩
  · intro h
    simp [h]
  · rw [List.length_append, nameUnits_length, List.length_drop, hbuf]
    omega

set_option maxRecDepth 1000000 in
theorem readEntrySet_fields_in_bounds_witness :
    ∃ (e : EntrySet) (c4 : Cursor) (buf4 : List Int),
      readEntrySet true smallVolume docsImage (Cursor.mk 1536 3 0) (List.replicate 255 0)
        = some (e, c4, buf4) ∧
      (e.directory = true ↔ (leValue docsImage (1536 + 4) 2).toNat.testBit 4 = true) ∧
      e.nameLength = docsImage.byte (1536 + 32 + 3) % 256 ∧
      e.nextDirCluster = leValue docsImage (1536 + 32 + 20) 4 ∧
      (true = true → e.length = leValue docsImage (1536 + 32 + 24) 8) ∧
      buf4.length = 255 :=
  readEntrySet_fields_in_bounds true smallVolume docsImage (Cursor.mk 1536 3 0)
    (List.replicate 255 0) (by unfold Cursor.Ok; decide) (by decide) (by decide) (by decide)
    (by decide) (by decide) (by decide) (by decide)

/-- C6: for an entry set inside the current cluster (and the image) with
`secondaryCount ≥ 2`, at most 17 name slots and
`1 ≤ nameLength ≤ 15 * (secondaryCount - 1)`, the first `nameLength` code units of
the name array are the first `nameLength` code units of the concatenation, in slot
order, of the 15 code units at bytes 2..31 of each of the `secondaryCount - 1` name
slots; code unit `i` is unit `i mod 15` of name slot `i / 15`; and the decoded name
`unicode2ascii (unicodeString, nameLength)` consists of their low bytes. -/
theorem readEntrySet_name (isGet : Bool) (g : Geometry) (img : Image) (c : Cursor)
    (buf : List Int) (hok : c.Ok g) (hb : 0 ≤ c.bytesReadInCluster)
    (_htype : img.byte c.pos % 256 = 133)
    (hsc2 : 2 ≤ img.byte (c.pos + 1) % 256) (_hsc18 : img.byte (c.pos + 1) % 256 - 1 ≤ 17)
    (hin : c.bytesReadInCluster + 32 * (1 + img.byte (c.pos + 1) % 256) ≤ bytesPerCluster g)
    (himg : c.pos + 32 * (1 + img.byte (c.pos + 1) % 256) ≤ img.size)
    (hfat : fatEntryPos g (wrapU32 c.currCluster) + 4 ≤ img.size)
    (hn1 : 1 ≤ img.byte (c.pos + 32 + 3) % 256)
    (hn2 : img.byte (c.pos + 32 + 3) % 256 ≤ 15 * (img.byte (c.pos + 1) % 256 - 1)) :
    ∃ (e : EntrySet) (c4 : Cursor) (buf4 name : List Int),
      readEntrySet isGet g img c buf = some (e, c4, buf4) ∧
      unicode2ascii buf4 e.nameLength = some name ∧
      e.nameLength = img.byte (c.pos + 32 + 3) % 256 ∧
      buf4.take e.nameLength.toNat =
        (nameUnits img (c.pos + 64) (img.byte (c.pos + 1) % 256 - 1).toNat).take
          e.nameLength.toNat ∧
      (∀ i : Nat, (i : Int) < e.nameLength →
        buf4[i]? = some (leValue img
          (c.pos + 64 + 32 * ((i / 15 : Nat) : Int) + 2 + 2 * ((i % 15 : Nat) : Int)) 2)) ∧
      name = (buf4.take e.nameLength.toNat).map (fun u => u % 256) ++ [0] := by
  obtain ⟨k, hk⟩ : ∃ k : Nat, k = (img.byte (c.pos + 1) % 256 - 2).toNat := ⟨_, rfl⟩
  have hk1 : (img.byte (c.pos + 1) % 256 - 1).toNat = k + 1 := by omega
  obtain ⟨c4, h4⟩ := readEntrySet_in_cluster isGet g img c buf k hk hok hb
    (by omega) (by omega) hfat
  have hlen := nameUnits_length img (k + 1) (c.pos + 64)
  have hnl : (img.byte (c.pos + 32 + 3) % 256).toNat ≤ 15 * (k + 1) := by omega
  refine ⟨_, c4, _, _, h4, unicode2ascii_eq _ _ hn1 ?_, rfl, ?_, ?_, rfl⟩
  · simp only [List.length_append, hlen]
    push_cast
    omega
  · simp only []
    rw [hk1, List.take_append_of_le_length (by rw [hlen]; exact hnl)]
  · intro i hi
    simp only [] at hi
    have hi' : i < 15 * (k + 1) := by omega
    rw [List.getElem?_append_left (by rw [hlen]; exact hi'),
      nameUnits_getElem? img (k + 1) (c.pos + 64) i hi']

set_option maxRecDepth 1000000 in
theorem readEntrySet_name_witness :
    ∃ (e : EntrySet) (c4 : Cursor) (buf4 name : List Int),
      readEntrySet false smallVolume alignedImage (Cursor.mk 1408 2 384) [] = some (e, c4, buf4) ∧
      unicode2ascii buf4 e.nameLength = some name ∧
      e.nameLength = alignedImage.byte (1408 + 32 + 3) % 256 ∧
      buf4.take e.nameLength.toNat =
        (nameUnits alignedImage (1408 + 64) (alignedImage.byte (1408 + 1) % 256 - 1).toNat).take
          e.nameLength.toNat ∧
      (∀ i : Nat, (i : Int) < e.nameLength →
        buf4[i]? = some (leValue alignedImage
          (1408 + 64 + 32 * ((i / 15 : Nat) : Int) + 2 + 2 * ((i % 15 : Nat) : Int)) 2)) ∧
      name = (buf4.take e.nameLength.toNat).map (fun u => u % 256) ++ [0] :=
  readEntrySet_name false smallVolume alignedImage (Cursor.mk 1408 2 384) []
    (by unfold Cursor.Ok; decide) (by decide) (by decide) (by decide) (by decide) (by decide)
    (by decide) (by decide) (by decide) (by decide)

/-! ## The listing of a stored tree -/

theorem cString_append_zero (name : List Int) : cString (name ++ [0]) = cString name := by
  unfold cString
  induction name with
  | nil => simp
  | cons a t ih =>
    by_cases h : a = 0
    · simp [List.takeWhile, h]
    · simp [List.takeWhile, h, ih]

/-- What the decoder and `unicode2ascii` produce on an entry set stored along the
chain. -/
theorem readEntrySet_stored (isGet : Bool) (g : Geometry) (img : Image) (c c1 c2 cN : Cursor)
    (buf us : List Int) (hB : bytesPerCluster g ≠ 0) (hok : c.Ok g)
    (h : EntrySetAt g img c c1 c2 cN us) :
    ∃ (c4 : Cursor) (buf4 : List Int),
      readEntrySet isGet g img c buf = some (
        { secondaryCount := img.byte (c.pos + 1) % 256,
          directory := (leValue img (c.pos + 4) 2).toNat.testBit 4,
          nameLength := img.byte (c1.pos + 3) % 256,
          nextDirCluster := leValue img (c1.pos + 20) 4,
          length := if isGet then leValue img (c1.pos + 24) 8 else 0 }, c4, buf4) ∧
      goToNextCluster g img
        { pos := findOffsetToCluster g c4.currCluster + c4.bytesReadInCluster,
          currCluster := c4.currCluster,
          bytesReadInCluster := c4.bytesReadInCluster } = some cN ∧
      unicode2ascii buf4 (img.byte (c1.pos + 3) % 256)
        = some (narrow us (img.byte (c1.pos + 3) % 256) ++ [0]) ∧
      cN.Ok g := by
  obtain ⟨hr, _, hsc, ha, hr1, hnl, ha1, hn, hslip⟩ := h
  have hk : (img.byte (c.pos + 1) % 256 - 1).toNat
      = (img.byte (c.pos + 1) % 256 - 2).toNat + 1 := by omega
  rw [hk] at hn
  obtain ⟨c4, h4, hgo, hlen, hokN⟩ := readEntrySet_spec isGet g img c c1 c2 cN buf us hB hok
    hr.1 hr.2 ha hr1.1 hr1.2 ha1 hn hslip
  have hle : (img.byte (c1.pos + 3) % 256).toNat ≤ us.length := by omega
  refine ⟨c4, _, h4, hgo, ?_, hokN⟩
  rw [unicode2ascii_eq _ _ hnl.1 (by simp only [List.length_append]; omega)]
  unfold narrow
  rw [List.take_append_of_le_length hle]

set_option maxRecDepth 1000000 in
/-- C8 (the code at the failing input): when the entry set of `sixteen_chars.tx`
ends with cluster 2 (`alignedImage`), `listRecurse` lists it and the following
`b.txt`, and the decoder of `get` yields the name `sixteen_chars.tx` and continues
in cluster 4, the next cluster of the chain.  When the cluster boundary falls
between its two name slots (`straddleImage`), the second name slot is read from
the start of the physically adjacent cluster 3: the name becomes
`sixteen_chars.te`, the cursor stays in cluster 2 with a byte count of 544, beyond
the cluster size, and `b.txt` is never listed. -/
theorem straddling_set_misread :
    listRecurse alignedImage (List.replicate 255 0) 20 2 0
      = some (ascii "File: sixteen_chars.tx\nFile: b.txt\n") ∧
    listRecurse straddleImage (List.replicate 255 0) 20 2 0
      = some (ascii "File: sixteen_chars.te\n") ∧
    (readEntrySet true smallVolume alignedImage (Cursor.mk 1408 2 384)
        (List.replicate 255 0)).bind
      (fun r => (unicode2ascii r.2.2 r.1.nameLength).map (fun name => (r.1, r.2.1, name)))
      = some ({ secondaryCount := 3, directory := false, nameLength := 16,
                nextDirCluster := 6, length := 5 },
              Cursor.mk 2048 4 0, ascii "sixteen_chars.tx" ++ [0]) ∧
    (readEntrySet true smallVolume straddleImage (Cursor.mk 1440 2 416)
        (List.replicate 255 0)).bind
      (fun r => (unicode2ascii r.2.2 r.1.nameLength).map (fun name => (r.1, r.2.1, name)))
      = some ({ secondaryCount := 3, directory := false, nameLength := 16,
                nextDirCluster := 6, length := 5 },
              Cursor.mk 1568 2 544, ascii "sixteen_chars.te" ++ [0]) := by
  decide

/-! ## Size of the file written by `getFile` -/

theorem readBytes_length (img : Image) (n : Nat) :
    ∀ (p : Int) (l : List Int), img.readBytes p n = some l → l.length = n := by
  induction n with
  | zero => intro p l h; simp only [Image.readBytes, Option.some.injEq] at h; subst h; rfl
  | succ k ih =>
    intro p l h
    rw [Image.readBytes] at h
    cases hb : img.read8 p with
    | none => rw [hb] at h; simp at h
    | some b =>
      cases hr : img.readBytes (p + 1) k with
      | none => rw [hb, hr] at h; simp at h
      | some r =>
        rw [hb, hr] at h
        simp only [Option.some.injEq] at h
        subst h
        simp [ih (p + 1) r hr]

/-- Whenever the copy loop of `getFile` ends, it has appended whole clusters only:
as many as are needed to cover the bytes that were still to be copied. -/
theorem getFileLoop_length (g : Geometry) (img : Image) (length : Int)
    (hB : 0 < bytesPerCluster g) (hL : length < 18446744073709551616) (fuel : Nat) :
    ∀ (cur : Option (Int × Int)) (bytesRead : Int) (out res : List Int),
      0 ≤ bytesRead → bytesRead ≤ length →
      getFileLoop g img length fuel cur bytesRead out = some res →
      (res.length : Int) = out.length
        + (length - bytesRead + bytesPerCluster g - 1) / bytesPerCluster g * bytesPerCluster g := by
  have hBlt : bytesPerCluster g < 2147483648 := by unfold bytesPerCluster wrapI32; omega
  have hzero : ∀ br : Int, br = length →
      (length - br + bytesPerCluster g - 1) / bytesPerCluster g * bytesPerCluster g = 0 := by
    intro br hbr
    rw [hbr, show length - length + bytesPerCluster g - 1 = bytesPerCluster g - 1 by ring,
      Int.ediv_eq_zero_of_lt (by omega) (by omega)]
    ring
  induction fuel with
  | zero =>
    intro cur br out res _ _ h
    unfold getFileLoop at h
    split at h
    · rename_i hbr
      simp only [Option.some.injEq] at h
      subst h
      rw [hzero br hbr]; ring
    · simp at h
  | succ f ih =>
    intro cur br out res h0 hle h
    rw [getFileLoop.eq_def] at h
    simp only [] at h
    split at h
    · rename_i hbr
      simp only [Option.some.injEq] at h
      subst h
      rw [hzero br hbr]; ring
    · rename_i hbr
      cases cur with
      | none => simp at h
      | some cp =>
        obtain ⟨currCluster, pos⟩ := cp
        simp only [] at h
        cases hread : img.readBytes pos (bytesPerCluster g).toNat with
        | none => rw [hread] at h; simp at h
        | some cluster =>
          rw [hread] at h
          simp only [] at h
          have hclen : (cluster.length : Int) = bytesPerCluster g := by
            rw [readBytes_length img _ pos cluster hread]; omega
          have hw1 : wrapU64 (length - br) = length - br := by unfold wrapU64; omega
          have hw2 : wrapU64 (bytesPerCluster g) = bytesPerCluster g := by unfold wrapU64; omega
          rw [hw1, hw2] at h
          by_cases hlt : length - br < bytesPerCluster g
          · rw [if_pos hlt] at h
            have hw3 : wrapU64 (br + (length - br)) = length := by unfold wrapU64; omega
            rw [hw3] at h
            have := ih _ length (out ++ cluster) res (by omega) (le_refl _) h
            rw [this, hzero length rfl]
            have hq : (length - br + bytesPerCluster g - 1) / bytesPerCluster g = 1 := by
              rw [show length - br + bytesPerCluster g - 1
                = (length - br - 1) + bytesPerCluster g by ring,
                Int.add_ediv_of_dvd_right (dvd_refl _), Int.ediv_self (by omega),
                Int.ediv_eq_zero_of_lt (by omega) (by omega)]
              rfl
            rw [hq]
            simp only [List.length_append]; push_cast; omega
          · rw [if_neg hlt] at h
            have hw3 : wrapU64 (br + bytesPerCluster g) = br + bytesPerCluster g := by
              unfold wrapU64; omega
            rw [hw3] at h
            have := ih _ (br + bytesPerCluster g) (out ++ cluster) res (by omega) (by omega) h
            rw [this]
            have hq : (length - br + bytesPerCluster g - 1) / bytesPerCluster g
                = (length - (br + bytesPerCluster g) + bytesPerCluster g - 1) / bytesPerCluster g + 1 := by
              rw [show length - br + bytesPerCluster g - 1
                = (length - (br + bytesPerCluster g) + bytesPerCluster g - 1) + bytesPerCluster g by ring,
                Int.add_ediv_of_dvd_right (dvd_refl _), Int.ediv_self (by omega)]
            rw [hq]
            simp only [List.length_append]; push_cast
            rw [hclen]; ring

/-- The file written by `getFile` consists of whole clusters: its size is the length
rounded up to a multiple of the cluster size. -/
theorem getFile_length (g : Geometry) (img : Image) (fuel : Nat) (startCluster length : Int)
    (out : List Int) (hB : 0 < bytesPerCluster g) (h0 : 0 ≤ length)
    (hL : length < 18446744073709551616)
    (h : getFile g img fuel startCluster length = some out) :
    (out.length : Int)
      = (length + bytesPerCluster g - 1) / bytesPerCluster g * bytesPerCluster g := by
  have := getFileLoop_length g img length hB hL fuel _ 0 [] out (le_refl 0) h0 h
  simpa using this

/-! ## Free space of an empty volume -/

theorem zeroBitsIn_all_clear (img : Image) (n : Nat) :
    ∀ p : Int, (∀ k : Int, 0 ≤ k → k < n → img.byte (p + k) % 256 = 0) →
      zeroBitsIn img p n = 8 * n := by
  induction n with
  | zero => intro p _; rfl
  | succ k ih =>
    intro p h
    have h0 := h 0 (le_refl 0) (by push_cast; omega)
    simp only [add_zero] at h0
    have hk : zeroBitsIn img (p + 1) k = 8 * k := by
      apply ih
      intro j hj0 hj1
      have := h (1 + j) (by omega) (by push_cast; omega)
      rwa [← add_assoc] at this
    have hz : zeroBits 0 = 8 := by decide
    rw [zeroBitsIn, h0, hk, hz]
    push_cast; ring

/-- The value of `freeSpaceKB` when no conversion changes a value. -/
theorem getEmptys_of_small (g : Geometry) (img : Image) (pos0 offset cur start Z : Int)
    (hcc : 0 ≤ g.clusterCount) (hcc2 : g.clusterCount < 4294967296)
    (hs : 0 < g.sectorsPerCluster) (hb : 0 < g.bytesPerSector)
    (hB : g.bytesPerSector * g.sectorsPerCluster < 2147483648)
    (hstart : start = if 0 ≤ offset then offset else pos0) (h0 : 0 ≤ start)
    (hin : start + g.clusterCount / 8 ≤ img.size)
    (hZ : zeroBitsIn img start (g.clusterCount / 8).toNat = Z)
    (hq : Z * g.sectorsPerCluster * g.bytesPerSector / 1024 < 2147483648) :
    getEmptys g img pos0 offset cur
      = some (Z * g.sectorsPerCluster * g.bytesPerSector / 1024) := by
  have hBpos : 0 < g.bytesPerSector * g.sectorsPerCluster := mul_pos hb hs
  have hB0 : bytesPerCluster g ≠ 0 := by
    unfold bytesPerCluster
    rw [wrapI32_of_range _ (by omega) hB]; omega
  have heq := getEmptys_eq g img pos0 offset cur start hcc hcc2 hB0 hstart h0 hin
  have hZ0 : 0 ≤ Z := hZ ▸ zeroBitsIn_nonneg img (g.clusterCount / 8).toNat start
  rw [hZ] at heq
  have hP : 0 ≤ Z * g.sectorsPerCluster := mul_nonneg hZ0 (le_of_lt hs)
  have hQ : 0 ≤ Z * g.sectorsPerCluster * g.bytesPerSector := mul_nonneg hP (le_of_lt hb)
  have hPQ : Z * g.sectorsPerCluster ≤ Z * g.sectorsPerCluster * g.bytesPerSector := by
    nlinarith
  have hQlt : Z * g.sectorsPerCluster * g.bytesPerSector < 2199023255552 := by omega
  have w1 : wrapI64 (Z * g.sectorsPerCluster) = Z * g.sectorsPerCluster := by
    unfold wrapI64; omega
  have w2 : wrapI64 (Z * g.sectorsPerCluster * g.bytesPerSector)
      = Z * g.sectorsPerCluster * g.bytesPerSector := by
    unfold wrapI64; omega
  rw [heq, w1, w2, Int.tdiv_eq_ediv hQ (by decide), wrapI32_of_range _ (by omega) hq]

/-- C11 (as stated, refuted): with 12 clusters of 512 bytes and every bit of the
bitmap clear, the claim gives `12 * 512 / 1024 = 6` KB; `getEmptys` scans
`12 / 8 = 1` byte, finds 8 free clusters and stores 4. -/
theorem getEmptys_drops_partial_byte :
    getEmptys oddVolume blankImage 0 2560 2 = some 4 ∧
    oddVolume.clusterCount * (oddVolume.bytesPerSector * oddVolume.sectorsPerCluster) / 1024 = 6 ∧
    getEmptys oddVolume blankImage 0 2560 2 ≠
      some (oddVolume.clusterCount
        * (oddVolume.bytesPerSector * oddVolume.sectorsPerCluster) / 1024) := by
  decide

/-- C11 (amended): when every one of the `clusterCount / 8` bytes that `getEmptys`
scans is zero (all of them inside the image, positive sector and cluster sizes, a
cluster size that fits an `int`) and the result is below `2 ^ 31`, `freeSpaceKB` is
`8 * (clusterCount / 8) * bytesPerCluster / 1024`: only whole bitmap bytes are
counted.  This is `clusterCount * bytesPerCluster / 1024` when `clusterCount` is a
multiple of 8. -/
theorem getEmptys_all_clear (g : Geometry) (img : Image) (pos0 offset cur start : Int)
    (hcc : 0 ≤ g.clusterCount) (hcc2 : g.clusterCount < 4294967296)
    (hs : 0 < g.sectorsPerCluster) (hb : 0 < g.bytesPerSector)
    (hB : g.bytesPerSector * g.sectorsPerCluster < 2147483648)
    (hstart : start = if 0 ≤ offset then offset else pos0) (h0 : 0 ≤ start)
    (hin : start + g.clusterCount / 8 ≤ img.size)
    (hclear : ∀ k : Int, 0 ≤ k → k < g.clusterCount / 8 → img.byte (start + k) % 256 = 0)
    (hq : 8 * (g.clusterCount / 8) * g.sectorsPerCluster * g.bytesPerSector / 1024
      < 2147483648) :
    getEmptys g img pos0 offset cur
      = some (8 * (g.clusterCount / 8) * (g.bytesPerSector * g.sectorsPerCluster) / 1024) ∧
    (g.clusterCount % 8 = 0 →
      getEmptys g img pos0 offset cur
        = some (g.clusterCount * (g.bytesPerSector * g.sectorsPerCluster) / 1024)) := by
  have hcast : (((g.clusterCount / 8).toNat : Nat) : Int) = g.clusterCount / 8 :=
    Int.toNat_of_nonneg (by omega)
  have hZ : zeroBitsIn img start (g.clusterCount / 8).toNat = 8 * (g.clusterCount / 8) := by
    rw [zeroBitsIn_all_clear img _ start (by rw [hcast]; exact hclear), hcast]
  have hrun := getEmptys_of_small g img pos0 offset cur start _ hcc hcc2 hs hb hB hstart h0 hin
    hZ hq
  have hre : 8 * (g.clusterCount / 8) * g.sectorsPerCluster * g.bytesPerSector
      = 8 * (g.clusterCount / 8) * (g.bytesPerSector * g.sectorsPerCluster) := by ring
  rw [hre] at hrun
  refine ⟨hrun, ?_⟩
  intro hmul
  have h8 : 8 * (g.clusterCount / 8) = g.clusterCount := by omega
  rw [hrun, h8]

theorem getEmptys_all_clear_witness :
    getEmptys oddVolume blankImage 0 2560 2
      = some (8 * (oddVolume.clusterCount / 8)
          * (oddVolume.bytesPerSector * oddVolume.sectorsPerCluster) / 1024) ∧
    (oddVolume.clusterCount % 8 = 0 →
      getEmptys oddVolume blankImage 0 2560 2
        = some (oddVolume.clusterCount
            * (oddVolume.bytesPerSector * oddVolume.sectorsPerCluster) / 1024)) :=
  getEmptys_all_clear oddVolume blankImage 0 2560 2 2560 (by decide) (by decide) (by decide)
    (by decide) (by decide) (by decide) (by decide) (by decide)
    (by intro k _ _; simp [blankImage]) (by decide)

/-! ## Geometry readers -/

/-- C12: for an image of at least 110 bytes whose bytes at offsets 108 and 109 are
below 31, the readers deliver: `fatOffset` the little-endian 32-bit value at offset
80, `clstHeapOffset` the one at 88, `clusterCount` the one at 92, `rootDirectory`
the one at 96, `serialNumber` the one at 100, `bytesPerSector` = 2 ^ (byte 108) and
`sectorsPerCluster` = 2 ^ (byte 109); each power exceeds its exponent, which is
never the magnitude itself. -/
theorem readers_fields (img : Image) (hsize : 110 ≤ img.size)
    (h108 : img.byte 108 % 256 < 31) (h109 : img.byte 109 % 256 < 31) :
    getFatOffset img = some (leValue img 80 4) ∧
    clusterHeapOffset img = some (leValue img 88 4, leValue img 92 4) ∧
    getRootDirectory img = some (leValue img 96 4) ∧
    getSerialNumber img = some (leValue img 100 4) ∧
    sectorsPerClus img
      = some (2 ^ (img.byte 108 % 256).toNat, 2 ^ (img.byte 109 % 256).toNat) ∧
    img.byte 108 % 256 < 2 ^ (img.byte 108 % 256).toNat ∧
    img.byte 109 % 256 < 2 ^ (img.byte 109 % 256).toNat := by
  have hpow : ∀ e : Int, 0 ≤ e → e < (2 : Int) ^ e.toNat := by
    intro e he
    have h1 : e.toNat < 2 ^ e.toNat := Nat.lt_two_pow e.toNat
    have h2 : ((e.toNat : Nat) : Int) = e := Int.toNat_of_nonneg he
    calc e = ((e.toNat : Nat) : Int) := h2.symm
      _ < ((2 ^ e.toNat : Nat) : Int) := by exact_mod_cast h1
      _ = (2 : Int) ^ e.toNat := by push_cast; rfl
  refine ⟨?_, ?_, ?_, ?_, ?_, hpow _ (by omega), hpow _ (by omega)⟩
  · exact readLE_of_le img 4 80 (by decide) (by push_cast; omega)
  · unfold clusterHeapOffset
    rw [readLE_of_le img 4 88 (by decide) (by push_cast; omega),
      readLE_of_le img 4 92 (by decide) (by push_cast; omega)]
  · exact readLE_of_le img 4 96 (by decide) (by push_cast; omega)
  · exact readLE_of_le img 4 100 (by decide) (by push_cast; omega)
  · unfold sectorsPerClus
    rw [read8_of_lt img 108 (by decide) (by omega), read8_of_lt img 109 (by decide) (by omega)]
    simp only []
    rw [if_pos ⟨h108, h109⟩]

set_option maxRecDepth 1000000 in
theorem readers_fields_witness :
    getFatOffset docsImage = some (leValue docsImage 80 4) ∧
    clusterHeapOffset docsImage = some (leValue docsImage 88 4, leValue docsImage 92 4) ∧
    getRootDirectory docsImage = some (leValue docsImage 96 4) ∧
    getSerialNumber docsImage = some (leValue docsImage 100 4) ∧
    sectorsPerClus docsImage
      = some (2 ^ (docsImage.byte 108 % 256).toNat, 2 ^ (docsImage.byte 109 % 256).toNat) ∧
    docsImage.byte 108 % 256 < 2 ^ (docsImage.byte 108 % 256).toNat ∧
    docsImage.byte 109 % 256 < 2 ^ (docsImage.byte 109 % 256).toNat :=
  readers_fields docsImage (by decide) (by decide) (by decide)

/-! ## Cluster indices below 2 -/

/-- C15 (as stated, refuted): for the cluster indices 1, 0 and -1
`findOffsetToCluster` returns an offset like for any other index; no error
arises. -/
theorem findOffsetToCluster_below_two_returns :
    findOffsetToCluster smallVolume 1 = 512 ∧ findOffsetToCluster smallVolume 0 = 0 ∧
    findOffsetToCluster smallVolume (-1) = 4294966784 := by
  decide

/-- C15 (amended): `findOffsetToCluster` has no validity check: for every cluster
index `c < 2` (an `int`, the product `(c - 2) * sectorsPerCluster` not overflowing)
it returns `((clstHeapOffset + (c - 2) * sectorsPerCluster) * bytesPerSector)
mod 2 ^ 32`, a value in `[0, 2 ^ 32)`. -/
theorem findOffsetToCluster_below_two (g : Geometry) (c : Int) (_hc : c < 2)
    (_hint : -2147483648 ≤ c - 2)
    (_hfit : -2147483648 ≤ (c - 2) * g.sectorsPerCluster ∧
      (c - 2) * g.sectorsPerCluster < 2147483648) :
    findOffsetToCluster g c =
      ((g.clstHeapOffset + (c - 2) * g.sectorsPerCluster) * g.bytesPerSector) % 4294967296 ∧
    0 ≤ findOffsetToCluster g c ∧ findOffsetToCluster g c < 4294967296 :=
  ⟨findOffsetToCluster_eq_mod g c, wrapU32_nonneg _, wrapU32_lt _⟩

theorem findOffsetToCluster_below_two_witness :
    findOffsetToCluster smallVolume 1 =
      ((smallVolume.clstHeapOffset + (1 - 2) * smallVolume.sectorsPerCluster)
        * smallVolume.bytesPerSector) % 4294967296 ∧
    0 ≤ findOffsetToCluster smallVolume 1 ∧ findOffsetToCluster smallVolume 1 < 4294967296 :=
  findOffsetToCluster_below_two smallVolume 1 (by decide) (by decide) (by decide)

/-! ## The name array -/

set_option maxRecDepth 1000000 in
/-- C16 (the code at the failing input): an entry set with `secondaryCount` 19 is
decoded without any error; its 18 name slots are stored at the indices 0..269 of
the name array, which has 255 elements: the array of the model has grown to 270
elements, the indices 255..269 holding the code units of the last name slot. -/
theorem readEntrySet_writes_past_array :
    (readEntrySet false twoSectorVolume longNameImage (Cursor.mk 1024 2 0)
        (List.replicate 255 0)).map (fun r => (r.1.secondaryCount, r.2.2.length))
      = some (19, 270) ∧
    (readEntrySet false twoSectorVolume longNameImage (Cursor.mk 1024 2 0)
        (List.replicate 255 0)).map (fun r => r.2.2.drop 254)
      = some (List.replicate 16 97) ∧
    (readEntrySet true twoSectorVolume longNameImage (Cursor.mk 1024 2 0)
        (List.replicate 255 0)).map (fun r => (r.1.secondaryCount, r.2.2.length))
      = some (19, 270) := by
  refine ⟨by decide, by decide, by decide⟩

/-! ## Locating and scanning the bitmap -/

set_option maxRecDepth 1000000 in
/-- C17 (the code at the failing input): on a volume with two sectors per cluster
whose bitmap entry names cluster 3 as first cluster, that cluster starts at byte
`findOffsetToCluster 3 = 2048`; `allocationBitMap` starts the scan at byte
`(clstHeapOffset + (3 - 2)) * bytesPerSector = 1536`, inside the root directory,
and reports 16 KB of free space where the bitmap has 13 clear bits. -/
theorem allocationBitMap_scan_start_off :
    readGeometry twoSectorImage = some twoSectorVolume ∧
    getRootDirectory twoSectorImage = some 2 ∧
    leValue twoSectorImage (1056 + 20) 4 = 3 ∧
    findOffsetToCluster twoSectorVolume 3 = 2048 ∧
    allocationBitMapScanStart twoSectorVolume twoSectorImage 2 2 0 = some 1536 ∧
    allocationBitMap twoSectorVolume twoSectorImage 2 2 0 = some 16 ∧
    zeroBitsIn twoSectorImage 2048 2 = 13 := by
  decide

theorem zeroBitsIn_add (img : Image) (m : Nat) :
    ∀ (n : Nat) (p : Int),
      zeroBitsIn img p (n + m) = zeroBitsIn img p n + zeroBitsIn img (p + n) m := by
  intro n
  induction n with
  | zero => intro p; simp [zeroBitsIn]
  | succ k ih =>
    intro p
    rw [show k + 1 + m = (k + m) + 1 by omega, zeroBitsIn, zeroBitsIn, ih (p + 1)]
    rw [show p + 1 + (k : Int) = p + ((k + 1 : Nat) : Int) by push_cast; ring]
    ring

theorem fragImage_set (p : Int)
    (h : (66048 ≤ p ∧ p < 66560) ∨ (67072 ≤ p ∧ p < 67584)) : fragImage.byte p % 256 = 255 := by
  simp only [fragImage, if_pos h]
  decide

theorem fragImage_clear (p : Int) (h0 : 66560 ≤ p) (h1 : p < 67072) :
    fragImage.byte p % 256 = 0 := by
  have h : ¬ ((66048 ≤ p ∧ p < 66560) ∨ (67072 ≤ p ∧ p < 67584)) := by omega
  simp only [fragImage, if_neg h, if_neg (show ¬ p < 66048 by omega)]
  decide

/-- Zero bits in the 1024 bytes that follow the start of cluster 3 physically. -/
theorem fragImage_linear : zeroBitsIn fragImage 66048 1024 = 4096 := by
  rw [show (1024 : Nat) = 512 + 512 by rfl, zeroBitsIn_add,
    zeroBitsIn_all_set fragImage 512 66048
      (fun k h0 h1 => fragImage_set _ (Or.inl ⟨by omega, by push_cast at h1; omega⟩)),
    zeroBitsIn_all_clear fragImage 512 (66048 + (512 : Nat))
      (fun k h0 h1 => fragImage_clear _ (by push_cast; omega) (by push_cast at h1 ⊢; omega))]
  decide

/-- Along the chain 3 -> 5 no bit of the bitmap is clear. -/
theorem fragImage_chain (k : Nat) (hk : k ≤ 1024) :
    zeroBitsAlongChain fragVolume fragImage 3 k = some 0 := by
  induction k with
  | zero => rfl
  | succ j ih =>
    have hB : bytesPerCluster fragVolume = 512 := by decide
    have hz : zeroBits 255 = 0 := by decide
    rw [zeroBitsAlongChain, ih (by omega), hB]
    by_cases hj : j < 512
    · have hq : ((j : Int) / 512).toNat = 0 := by omega
      have hc : chainFrom fragVolume fragImage 0 3 = some 3 := rfl
      have ho : findOffsetToCluster fragVolume 3 = 66048 := by decide
      rw [hq, hc]
      simp only []
      rw [ho, fragImage_set _ (Or.inl ⟨by omega, by omega⟩), hz]
      rfl
    · have hq : ((j : Int) / 512).toNat = 1 := by omega
      have hc : chainFrom fragVolume fragImage 1 3 = some 5 := by decide
      have ho : findOffsetToCluster fragVolume 5 = 67072 := by decide
      rw [hq, hc]
      simp only []
      rw [ho, fragImage_set _ (Or.inr ⟨by omega, by omega⟩), hz]
      rfl

set_option maxRecDepth 1000000 in
/-- C18 (the code at the failing input): the bitmap of `fragImage` takes 1024 bytes,
two clusters, stored in the chain 3 -> 5, both full of set bits: along the chain no
bit is clear.  `getEmptys` reads the 1024 bytes that follow the start of cluster 3
physically, the second half from cluster 4, and `allocationBitMap` reports
2048 KB of free space. -/
theorem getEmptys_ignores_chain :
    readGeometry fragImage = some fragVolume ∧
    fragVolume.clusterCount / 8 > bytesPerCluster fragVolume ∧
    chainFrom fragVolume fragImage 1 3 = some 5 ∧
    allocationBitMapScanStart fragVolume fragImage 2 2 0
      = some (findOffsetToCluster fragVolume 3) ∧
    zeroBitsAlongChain fragVolume fragImage 3 1024 = some 0 ∧
    zeroBitsIn fragImage (findOffsetToCluster fragVolume 3) 1024 = 4096 ∧
    allocationBitMap fragVolume fragImage 2 2 0 = some 2048 := by
  have ho : findOffsetToCluster fragVolume 3 = 66048 := by decide
  have hloop : allocationBitMapLoop fragVolume fragImage 2
      (allocationBitMapStart fragVolume 2 0) 2 0 = some (66048, 2, 65592) := by decide
  refine ⟨by decide, by decide, by decide, by decide, fragImage_chain 1024 (le_refl _),
    by rw [ho]; exact fragImage_linear, ?_⟩
  unfold allocationBitMap
  rw [hloop]
  simp only []
  rw [getEmptys_of_small fragVolume fragImage 65592 66048 2 66048 4096 (by decide) (by decide)
    (by decide) (by decide) (by decide) (by decide) (by decide) (by decide)
    fragImage_linear (by decide)]
  decide

/-! ## The iterations of the copy loop -/

theorem readBytes_of_le (img : Image) (n : Nat) :
    ∀ p : Int, 0 ≤ p → p + n ≤ img.size → img.readBytes p n = some (bytesAt img p n) := by
  induction n with
  | zero => intro p _ _; rfl
  | succ k ih =>
    intro p h0 h1
    push_cast at h1
    rw [Image.readBytes, read8_of_lt img p h0 (by omega), ih (p + 1) (by omega) (by omega)]
    rfl

/-- The bookkeeping does not change the loop: the output of `getFileTraceLoop` is
the output of `getFileLoop`. -/
theorem getFileTraceLoop_out (g : Geometry) (img : Image) (length : Int) (fuel : Nat) :
    ∀ (cur : Option (Int × Int)) (t : CopyTrace),
      (getFileTraceLoop g img length fuel cur t).map (fun r => r.out)
        = getFileLoop g img length fuel cur t.bytesRead t.out := by
  induction fuel with
  | zero =>
    intro cur t
    unfold getFileTraceLoop getFileLoop
    split <;> simp
  | succ f ih =>
    intro cur t
    rw [getFileTraceLoop.eq_def, getFileLoop.eq_def]
    simp only []
    split
    · simp
    · cases cur with
      | none => simp
      | some cp =>
        obtain ⟨currCluster, pos⟩ := cp
        simp only []
        cases hread : img.readBytes pos (bytesPerCluster g).toNat with
        | none => simp
        | some cluster =>
          simp only []
          rw [ih]

theorem getFileTrace_out (g : Geometry) (img : Image) (fuel : Nat) (startCluster length : Int) :
    (getFileTrace g img fuel startCluster length).map (fun r => r.out)
      = getFile g img fuel startCluster length :=
  getFileTraceLoop_out g img length fuel _ _

/-- Rounding up: the number of clusters needed for `x` more bytes. -/
theorem ceil_step_last (x B : Int) (h0 : 0 < x) (h1 : x < B) : (x + B - 1) / B = 1 := by
  rw [show x + B - 1 = (x - 1) + B by ring, Int.add_ediv_of_dvd_right (dvd_refl _),
    Int.ediv_self (by omega), Int.ediv_eq_zero_of_lt (by omega) (by omega)]
  rfl

theorem ceil_step (x B : Int) (hB : 0 < B) : (x + B - 1) / B = (x - B + B - 1) / B + 1 := by
  rw [show x + B - 1 = (x - B + B - 1) + B by ring, Int.add_ediv_of_dvd_right (dvd_refl _),
    Int.ediv_self (by omega)]

theorem ceil_zero (B : Int) (hB : 0 < B) : ((0 : Int) + B - 1) / B = 0 := by
  rw [show (0 : Int) + B - 1 = B - 1 by ring]
  exact Int.ediv_eq_zero_of_lt (by omega) (by omega)

theorem ceil_pos (x B : Int) (hB : 0 < B) (hx : 0 < x) : 0 < (x + B - 1) / B := by
  by_cases h : x < B
  · rw [ceil_step_last x B hx h]; decide
  · rw [ceil_step x B hB]
    have : 0 ≤ (x - B + B - 1) / B := Int.ediv_nonneg (by omega) (by omega)
    omega

/-- The copy loop with `m` clusters still to go: it runs `m` more iterations, each
on the next cluster of the chain. -/
theorem getFileTraceLoop_run (g : Geometry) (img : Image) (length : Int)
    (hB : 0 < bytesPerCluster g) (hL : length < 18446744073709551616) (m : Nat) :
    ∀ (fuel : Nat) (cur : Option (Int × Int)) (c : Int) (t : CopyTrace),
      0 ≤ t.bytesRead → t.bytesRead ≤ length →
      (m : Int) = (length - t.bytesRead + bytesPerCluster g - 1) / bytesPerCluster g →
      m ≤ fuel → (0 < m → cur = some (c, findOffsetToCluster g c)) →
      (∀ i : Nat, i < m → ∃ ci, chainFrom g img i c = some ci ∧
        findOffsetToCluster g ci + bytesPerCluster g ≤ img.size) →
      getFileTraceLoop g img length fuel cur t = some
        { iterations := t.iterations + m,
          reads := t.reads ++ (chainClusters g img m c).map
            (fun x => (x, findOffsetToCluster g x)),
          bytesRead := length,
          out := t.out ++ ((chainClusters g img m c).map
            (fun x => bytesAt img (findOffsetToCluster g x) (bytesPerCluster g).toNat)).flatten } := by
  have hBlt : bytesPerCluster g < 2147483648 := by unfold bytesPerCluster wrapI32; omega
  induction m with
  | zero =>
    intro fuel cur c t h0 hle hm _ _ _
    have hbr : t.bytesRead = length := by
      by_contra hne
      have := ceil_pos (length - t.bytesRead) (bytesPerCluster g) hB (by omega)
      push_cast at hm
      omega
    have ht : (some t : Option CopyTrace) = some
        { iterations := t.iterations + 0,
          reads := t.reads ++ (chainClusters g img 0 c).map
            (fun x => (x, findOffsetToCluster g x)),
          bytesRead := length,
          out := t.out ++ ((chainClusters g img 0 c).map
            (fun x => bytesAt img (findOffsetToCluster g x) (bytesPerCluster g).toNat)).flatten } := by
      cases t
      simp only [] at hbr
      simp [chainClusters, hbr]
    cases fuel with
    | zero => unfold getFileTraceLoop; rw [if_pos hbr]; exact ht
    | succ f => rw [getFileTraceLoop.eq_def]; simp only []; rw [if_pos hbr]; exact ht
  | succ k ih =>
    intro fuel cur c t h0 hle hm hfuel hcur hchain
    obtain ⟨f, rfl⟩ : ∃ f, fuel = f + 1 := ⟨fuel - 1, by omega⟩
    have hne : t.bytesRead ≠ length := by
      intro h
      rw [h, show length - length + bytesPerCluster g - 1 = 0 + bytesPerCluster g - 1 by ring,
        ceil_zero _ hB] at hm
      push_cast at hm
      omega
    obtain ⟨c0, hc0, hin0⟩ := hchain 0 (by omega)
    simp only [chainFrom, Option.some.injEq] at hc0
    subst hc0
    have hw1 : wrapU64 (length - t.bytesRead) = length - t.bytesRead := by
      unfold wrapU64; omega
    have hw2 : wrapU64 (bytesPerCluster g) = bytesPerCluster g := by unfold wrapU64; omega
    have hcast : (((bytesPerCluster g).toNat : Nat) : Int) = bytesPerCluster g :=
      Int.toNat_of_nonneg (by omega)
    rw [getFileTraceLoop.eq_def]
    simp only []
    rw [if_neg hne, hcur (by omega)]
    simp only []
    rw [readBytes_of_le img _ _ (findOffsetToCluster_nonneg g c) (by rw [hcast]; exact hin0),
      hw1, hw2]
    simp only []
    -- the state of the next iteration
    have hnext : 0 < k →
        (match nextCluster g img (wrapU32 c) with
          | some n => some (wrapI32 n, findOffsetToCluster g (wrapI32 n))
          | none => none)
        = some ((match nextCluster g img (wrapU32 c) with
                  | some next => wrapI32 next
                  | none => 0),
                findOffsetToCluster g (match nextCluster g img (wrapU32 c) with
                  | some next => wrapI32 next
                  | none => 0)) := by
      intro hk
      obtain ⟨c1, hc1, -⟩ := hchain 1 (by omega)
      rw [chainFrom] at hc1
      cases hn : nextCluster g img (wrapU32 c) with
      | none => rw [hn] at hc1; simp at hc1
      | some n => rfl
    have hchain' : ∀ i : Nat, i < k → ∃ ci,
        chainFrom g img i (match nextCluster g img (wrapU32 c) with
          | some next => wrapI32 next
          | none => 0) = some ci ∧
        findOffsetToCluster g ci + bytesPerCluster g ≤ img.size := by
      intro i hi
      obtain ⟨ci, hci, hini⟩ := hchain (i + 1) (by omega)
      rw [chainFrom] at hci
      cases hn : nextCluster g img (wrapU32 c) with
      | none => rw [hn] at hci; simp at hci
      | some n => rw [hn] at hci; exact ⟨ci, hci, hini⟩
    have hbr' : wrapU64 (t.bytesRead + (if length - t.bytesRead < bytesPerCluster g
        then length - t.bytesRead else bytesPerCluster g))
        = t.bytesRead + (if length - t.bytesRead < bytesPerCluster g
          then length - t.bytesRead else bytesPerCluster g) := by
      unfold wrapU64; split <;> omega
    have hm' : (k : Int) = (length - (t.bytesRead + (if length - t.bytesRead < bytesPerCluster g
        then length - t.bytesRead else bytesPerCluster g)) + bytesPerCluster g - 1)
          / bytesPerCluster g := by
      push_cast at hm
      by_cases hlt : length - t.bytesRead < bytesPerCluster g
      · rw [if_pos hlt]
        rw [ceil_step_last _ _ (by omega) hlt] at hm
        rw [show length - (t.bytesRead + (length - t.bytesRead)) + bytesPerCluster g - 1
          = 0 + bytesPerCluster g - 1 by ring, ceil_zero _ hB]
        omega
      · rw [if_neg hlt]
        rw [ceil_step _ _ hB] at hm
        rw [show length - (t.bytesRead + bytesPerCluster g) + bytesPerCluster g - 1
          = length - t.bytesRead - bytesPerCluster g + bytesPerCluster g - 1 by ring]
        omega
    rw [hbr']
    rw [ih f _ (match nextCluster g img (wrapU32 c) with
          | some next => wrapI32 next
          | none => 0) _ (by simp only []; split <;> omega) (by simp only []; split <;> omega)
        hm' (by omega) hnext hchain']
    simp only [chainClusters, List.map_cons, List.flatten_cons, List.append_assoc,
      List.singleton_append]
    congr 2
    omega

/-- `get` on an entry set whose name does not match: the loop goes on behind it. -/
theorem getLoop_pass (g : Geometry) (img : Image) (junk path : List Int) (c c1 c2 cN : Cursor)
    (buf us seg : List Int) (levels : Nat) (hB : bytesPerCluster g ≠ 0) (hok : c.Ok g)
    (hset : EntrySetAt g img c c1 c2 cN us)
    (hseg : currentLookUp levels (cString path) = some seg)
    (hne : cString (narrow us (img.byte (c1.pos + 3) % 256)) ≠ seg) :
    ∃ buf4 : List Int, cN.Ok g ∧ ∀ fuel : Nat,
      getLoop g img junk path (fuel + 1) c buf levels
        = getLoop g img junk path fuel cN buf4 levels := by
  obtain ⟨c4, buf4, h4, hgo, hname, hokN⟩ :=
    readEntrySet_stored true g img c c1 c2 cN buf us hB hok hset
  obtain ⟨hr, htype, -⟩ := hset
  refine ⟨buf4, hokN, ?_⟩
  intro fuel
  have hne' : ¬ seg = cString (narrow us (img.byte (c1.pos + 3) % 256) ++ [0]) := by
    rw [cString_append_zero]; exact fun h => hne h.symm
  rw [getLoop, read8_of_lt img c.pos hr.1 (by omega)]
  simp only []
  rw [if_pos htype, h4]
  simp only []
  rw [hname, hseg]
  simp only []
  rw [if_neg (fun h => hne' h.2), if_neg (fun h => hne' h.2)]
  simp only []
  rw [hgo]
  simp only []
  cases getLoop g img junk path fuel cN buf4 levels <;> simp

/-- `get` on a file whose name matches: `getFile` is called and the loop ends. -/
theorem getLoop_here (g : Geometry) (img : Image) (junk path : List Int) (c c1 c2 cN : Cursor)
    (buf us seg : List Int) (levels : Nat) (hB : bytesPerCluster g ≠ 0) (hok : c.Ok g)
    (hset : EntrySetAt g img c c1 c2 cN us)
    (hseg : currentLookUp levels (cString path) = some seg)
    (hfile : (leValue img (c.pos + 4) 2).toNat.testBit 4 = false)
    (heq : cString (narrow us (img.byte (c1.pos + 3) % 256)) = seg) (fuel : Nat) :
    getLoop g img junk path (fuel + 1) c buf levels
      = (getFile g img fuel (wrapI32 (leValue img (c1.pos + 20) 4))
          (leValue img (c1.pos + 24) 8)).map (fun content => [(seg, content)]) := by
  obtain ⟨c4, buf4, h4, hgo, hname, hokN⟩ :=
    readEntrySet_stored true g img c c1 c2 cN buf us hB hok hset
  obtain ⟨hr, htype, -⟩ := hset
  have heq' : seg = cString (narrow us (img.byte (c1.pos + 3) % 256) ++ [0]) := by
    rw [cString_append_zero]; exact heq.symm
  rw [getLoop, read8_of_lt img c.pos hr.1 (by omega)]
  simp only []
  rw [if_pos htype, h4]
  simp only []
  rw [hname, hseg]
  simp only [if_true]
  rw [if_pos ⟨hfile, heq'⟩]
  cases getFile g img fuel (wrapI32 (leValue img (c1.pos + 20) 4))
    (leValue img (c1.pos + 24) 8) <;> rfl

theorem getLoop_stop (g : Geometry) (img : Image) (junk path : List Int) (c : Cursor)
    (buf : List Int) (levels fuel : Nat) (h0 : 0 ≤ c.pos) (h1 : c.pos < img.size)
    (hz : img.byte c.pos % 256 = 0) :
    getLoop g img junk path (fuel + 1) c buf levels = some [] := by
  rw [getLoop, read8_of_lt img c.pos h0 h1]
  simp only []
  rw [if_neg (by omega), if_pos hz]

theorem getLoop_skip (g : Geometry) (img : Image) (junk path : List Int) (c c1 : Cursor)
    (buf : List Int) (levels fuel : Nat) (h0 : 0 ≤ c.pos) (h1 : c.pos < img.size)
    (hne : img.byte c.pos % 256 ≠ 133) (hnz : img.byte c.pos % 256 ≠ 0)
    (hadv : advance g img c = some c1) :
    getLoop g img junk path (fuel + 1) c buf levels
      = getLoop g img junk path fuel c1 buf levels := by
  rw [getLoop, read8_of_lt img c.pos h0 h1]
  simp only []
  rw [if_neg hne, if_neg hnz, hadv]

/-- A directory none of whose names matches the current path segment is searched
to its end marker without any file being written. -/
theorem getLoop_not_found (g : Geometry) (img : Image) (junk path seg : List Int)
    (levels : Nat) (hB : bytesPerCluster g ≠ 0)
    (hseg : currentLookUp levels (cString path) = some seg)
    (c : Cursor) (t : Listing) (h : Stored g img c t) :
    c.Ok g → (∀ n ∈ topNames t, cString n ≠ seg) →
      ∃ F : Nat, ∀ fuel : Nat, F ≤ fuel → ∀ buf : List Int,
        getLoop g img junk path fuel c buf levels = some [] := by
  induction h with
  | done c h0 h1 hz =>
    intro _ _
    refine ⟨1, ?_⟩
    intro fuel hf buf
    obtain ⟨f, rfl⟩ : ∃ f, fuel = f + 1 := ⟨fuel - 1, by omega⟩
    exact getLoop_stop g img junk path c buf levels f h0 h1 hz
  | skip c c1 t h0 h1 hne hnz hadv _ ih =>
    intro hok hno
    obtain ⟨F, hF⟩ := ih (advance_ok g img c c1 hB hok hadv).1 hno
    refine ⟨F + 1, ?_⟩
    intro fuel hf buf
    obtain ⟨f, rfl⟩ : ∃ f, fuel = f + 1 := ⟨fuel - 1, by omega⟩
    rw [getLoop_skip g img junk path c c1 buf levels f h0 h1 hne hnz hadv]
    exact hF f (by omega) buf
  | file c c1 c2 cN us name rest hset _ hname _ ih =>
    intro hok hno
    have hne : cString (narrow us (img.byte (c1.pos + 3) % 256)) ≠ seg := by
      rw [← hname]; exact hno name (by simp [topNames])
    obtain ⟨buf0, hokN, -⟩ := getLoop_pass g img junk path c c1 c2 cN [] us seg levels hB hok
      hset hseg hne
    obtain ⟨F, hF⟩ := ih hokN (fun n hn => hno n (by simp [topNames, hn]))
    refine ⟨F + 1, ?_⟩
    intro fuel hf buf
    obtain ⟨f, rfl⟩ : ∃ f, fuel = f + 1 := ⟨fuel - 1, by omega⟩
    obtain ⟨buf4, -, hstep⟩ := getLoop_pass g img junk path c c1 c2 cN buf us seg levels hB hok
      hset hseg hne
    rw [hstep f]
    exact hF f (by omega) buf4
  | dir c c1 c2 cN us name children rest hset _ hname _ _ _ ihr =>
    intro hok hno
    have hne : cString (narrow us (img.byte (c1.pos + 3) % 256)) ≠ seg := by
      rw [← hname]; exact hno name (by simp [topNames])
    obtain ⟨buf0, hokN, -⟩ := getLoop_pass g img junk path c c1 c2 cN [] us seg levels hB hok
      hset hseg hne
    obtain ⟨F, hF⟩ := ihr hokN (fun n hn => hno n (by simp [topNames, hn]))
    refine ⟨F + 1, ?_⟩
    intro fuel hf buf
    obtain ⟨f, rfl⟩ : ∃ f, fuel = f + 1 := ⟨fuel - 1, by omega⟩
    obtain ⟨buf4, -, hstep⟩ := getLoop_pass g img junk path c c1 c2 cN buf us seg levels hB hok
      hset hseg hne
    rw [hstep f]
    exact hF f (by omega) buf4

/-- When the first entry set that matches the current path segment is a file, it
is copied, whatever the path holds behind that segment. -/
theorem getLoop_extracts (g : Geometry) (img : Image) (junk path seg content : List Int)
    (levels F0 : Nat) (hB : bytesPerCluster g ≠ 0)
    (hseg : currentLookUp levels (cString path) = some seg)
    (c : Cursor) (fc len : Int) (h : FileAt g img seg c fc len) :
    c.Ok g → (∀ fuel : Nat, F0 ≤ fuel → getFile g img fuel (wrapI32 fc) len = some content) →
      ∃ F : Nat, ∀ fuel : Nat, F ≤ fuel → ∀ buf : List Int,
        getLoop g img junk path fuel c buf levels = some [(seg, content)] := by
  induction h with
  | here c c1 c2 cN us hset hfile heq =>
    intro hok hcopy
    refine ⟨F0 + 1, ?_⟩
    intro fuel hf buf
    obtain ⟨f, rfl⟩ : ∃ f, fuel = f + 1 := ⟨fuel - 1, by omega⟩
    rw [getLoop_here g img junk path c c1 c2 cN buf us seg levels hB hok hset hseg hfile heq f,
      hcopy f (by omega)]
    rfl
  | skip c c1 fc len h0 h1 hne hnz hadv _ ih =>
    intro hok hcopy
    obtain ⟨F, hF⟩ := ih (advance_ok g img c c1 hB hok hadv).1 hcopy
    refine ⟨F + 1, ?_⟩
    intro fuel hf buf
    obtain ⟨f, rfl⟩ : ∃ f, fuel = f + 1 := ⟨fuel - 1, by omega⟩
    rw [getLoop_skip g img junk path c c1 buf levels f h0 h1 hne hnz hadv]
    exact hF f (by omega) buf
  | pass c c1 c2 cN us fc len hset hne _ ih =>
    intro hok hcopy
    obtain ⟨buf0, hokN, -⟩ := getLoop_pass g img junk path c c1 c2 cN [] us seg levels hB hok
      hset hseg hne
    obtain ⟨F, hF⟩ := ih hokN hcopy
    refine ⟨F + 1, ?_⟩
    intro fuel hf buf
    obtain ⟨f, rfl⟩ : ∃ f, fuel = f + 1 := ⟨fuel - 1, by omega⟩
    obtain ⟨buf4, -, hstep⟩ := getLoop_pass g img junk path c c1 c2 cN buf us seg levels hB hok
      hset hseg hne
    rw [hstep f]
    exact hF f (by omega) buf4

/-- The file written by `getFile` when the clusters of the chain can be read. -/
theorem getFile_of_chain (g : Geometry) (img : Image) (startCluster L : Int) (N : Nat)
    (hB : 0 < bytesPerCluster g) (h0 : 0 ≤ L) (hL : L < 18446744073709551616)
    (hN : (N : Int) = (L + bytesPerCluster g - 1) / bytesPerCluster g)
    (hchain : ∀ i : Nat, i < N → ∃ ci, chainFrom g img i startCluster = some ci ∧
      findOffsetToCluster g ci + bytesPerCluster g ≤ img.size)
    (fuel : Nat) (hf : N ≤ fuel) :
    getFile g img fuel startCluster L = some
      ((chainClusters g img N startCluster).map
        (fun x => bytesAt img (findOffsetToCluster g x) (bytesPerCluster g).toNat)).flatten := by
  have hrun := getFileTraceLoop_run g img L hB hL N fuel _ startCluster
    { iterations := 0, reads := [], bytesRead := 0, out := [] } (le_refl 0) h0
    (by simp only []; rw [hN]; congr 1; ring) hf (fun _ => rfl) hchain
  rw [← getFileTrace_out]
  unfold getFileTrace
  rw [hrun]
  rfl

set_option maxRecDepth 1000000 in
/-- C13 (as stated, refuted): the root directory of `rootFileImage` holds the names
`note.txt` and `a` followed by a zero byte, none of them equal to the path segment
`a` byte for byte; `strcmp` stops at the zero byte, takes the second name for `a`
and `get` writes the file `a`. -/
theorem get_matches_up_to_zero_byte :
    (readEntrySet true smallVolume rootFileImage (Cursor.mk 1152 2 128)
        (List.replicate 255 0)).bind
      (fun r => unicode2ascii r.2.2 r.1.nameLength) = some [97, 0, 0] ∧
    ([97, 0] : List Int) ≠ ascii "a" ∧ ascii "note.txt" ≠ ascii "a" ∧
    (get rootFileImage (List.replicate 255 0) (ascii "a") 4 2 0).map
      (fun files => files.map (fun f => (f.1, f.2.length, f.2.take 5)))
      = some [(ascii "a", 512, ascii "world")] ∧
    get rootFileImage (List.replicate 255 0) (ascii "a") 4 2 0 ≠ some [] := by
  decide

/-- C13 (amended): let the directory with first cluster `dirCluster` be stored as in
`Stored` (slots along the cluster chain inside the image, well-formed entry sets,
no cluster ending directly behind the first name slot of a set with further name
slots), let the path have a segment `seg` at depth `levels`, and let no entry set
of the directory have a narrowed name that, cut at its first zero byte, equals
`seg`.  Then `get (dirCluster, levels)`, given enough fuel, ends at the `0x00` slot
of that directory without calling `getFile`: no file is written. -/
theorem get_not_found (img : Image) (g : Geometry) (junk path seg : List Int)
    (dirCluster : Int) (levels : Nat) (tree : Listing)
    (hg : readGeometry img = some g) (hB : 0 < bytesPerCluster g)
    (hseg : currentLookUp levels (cString path) = some seg)
    (hs : Stored g img (Cursor.mk (findOffsetToCluster g dirCluster) dirCluster 0) tree)
    (hno : ∀ n ∈ topNames tree, cString n ≠ seg) :
    ∃ F : Nat, ∀ fuel : Nat, F ≤ fuel → get img junk path fuel dirCluster levels = some [] := by
  obtain ⟨F, hF⟩ := getLoop_not_found g img junk path seg levels (by omega) hseg _ tree hs
    (by simp [Cursor.Ok]) hno
  refine ⟨F, ?_⟩
  intro fuel hf
  unfold get
  rw [hg]
  exact hF fuel hf junk

set_option maxRecDepth 1000000 in
/-- The directory `docs` of the example volume. -/
theorem docsImage_docs_stored :
    Stored smallVolume docsImage (Cursor.mk (findOffsetToCluster smallVolume 3) 3 0)
      (Listing.file (ascii "note.txt") Listing.nil) := by
  have hstart : findOffsetToCluster smallVolume 3 = 1536 := by decide
  rw [hstart]
  refine Stored.file _ (Cursor.mk 1568 3 32) (Cursor.mk 1600 3 64) (Cursor.mk 1632 3 96)
    (slotUnits docsImage 1600) _ _ (by unfold EntrySetAt; decide) (by decide) (by decide) ?_
  exact Stored.done _ (by decide) (by decide) (by decide)

set_option maxRecDepth 1000000 in
theorem get_not_found_witness :
    ∃ F : Nat, ∀ fuel : Nat, F ≤ fuel →
      get docsImage (List.replicate 255 0) (ascii "docs/nope.txt") fuel 3 1 = some [] :=
  get_not_found docsImage smallVolume (List.replicate 255 0) (ascii "docs/nope.txt")
    (ascii "nope.txt") 3 1 (Listing.file (ascii "note.txt") Listing.nil)
    readGeometry_docsImage (by decide) (by decide) docsImage_docs_stored (by decide)

set_option maxRecDepth 1000000 in
/-- C14 (as stated, refuted): for the path `note.txt/extra`, whose first segment
names a regular file of the root directory, `get` calls `getFile` and writes the
file `note.txt`. -/
theorem get_extracts_intermediate_file :
    (get rootFileImage (List.replicate 255 0) (ascii "note.txt/extra") 4 2 0).map
      (fun files => files.map (fun f => (f.1, f.2.length, f.2.take 10)))
      = some [(ascii "note.txt", 512, ascii "hello!!!!\n")] ∧
    get rootFileImage (List.replicate 255 0) (ascii "note.txt/extra") 4 2 0 ≠ some [] := by
  decide

/-- C14 (amended): `get` has no wrong-kind failure.  For a path with at least two
segments whose first segment `seg` names a regular file of the root directory (the
first entry set of that name, cut at its first zero byte, is a file, with first
cluster `fc` and data length `len`, the entry sets before it being stored as in
`EntrySetAt`), `get (root, 0)` calls `getFile` for that file and writes its
content under the name `seg`, as soon as the fuel suffices; the remaining segments
are never looked at. -/
theorem get_copies_first_segment_file (img : Image) (g : Geometry)
    (junk path seg content : List Int) (root fc len : Int) (F0 : Nat)
    (hg : readGeometry img = some g) (hB : 0 < bytesPerCluster g)
    (hseg : currentLookUp 0 (cString path) = some seg)
    (_hmore : (currentLookUp 1 (cString path)).isSome = true)
    (hfile : FileAt g img seg (Cursor.mk (findOffsetToCluster g root) root 0) fc len)
    (hcopy : ∀ fuel : Nat, F0 ≤ fuel → getFile g img fuel (wrapI32 fc) len = some content) :
    ∃ F : Nat, ∀ fuel : Nat, F ≤ fuel →
      get img junk path fuel root 0 = some [(seg, content)] := by
  obtain ⟨F, hF⟩ := getLoop_extracts g img junk path seg content 0 F0 (by omega) hseg _ fc len
    hfile (by simp [Cursor.Ok]) hcopy
  refine ⟨F, ?_⟩
  intro fuel hf
  unfold get
  rw [hg]
  exact hF fuel hf junk

set_option maxRecDepth 1000000 in
theorem readGeometry_rootFileImage : readGeometry rootFileImage = some smallVolume := by
  decide

set_option maxRecDepth 1000000 in
/-- In the root directory of `rootFileImage` the name `note.txt` belongs to a file
in cluster 3 with 10 bytes of data. -/
theorem rootFileImage_fileAt :
    FileAt smallVolume rootFileImage (ascii "note.txt")
      (Cursor.mk (findOffsetToCluster smallVolume 2) 2 0) 3 10 := by
  have hstart : findOffsetToCluster smallVolume 2 = 1024 := by decide
  have hfc : leValue rootFileImage ((Cursor.mk 1088 2 64).pos + 20) 4 = 3 := by decide
  have hlen : leValue rootFileImage ((Cursor.mk 1088 2 64).pos + 24) 8 = 10 := by decide
  rw [hstart]
  refine FileAt.skip _ (Cursor.mk 1056 2 32) _ _ (by decide) (by decide) (by decide)
    (by decide) (by decide) ?_
  rw [← hfc, ← hlen]
  exact FileAt.here _ (Cursor.mk 1088 2 64) (Cursor.mk 1120 2 96) (Cursor.mk 1152 2 128)
    (slotUnits rootFileImage 1120) (by unfold EntrySetAt; decide) (by decide) (by decide)

set_option maxRecDepth 1000000 in
theorem get_copies_first_segment_file_witness :
    ∃ F : Nat, ∀ fuel : Nat, F ≤ fuel →
      get rootFileImage (List.replicate 255 0) (ascii "note.txt/extra") fuel 2 0
        = some [(ascii "note.txt",
            ((chainClusters smallVolume rootFileImage 1 3).map
              (fun x => bytesAt rootFileImage (findOffsetToCluster smallVolume x)
                (bytesPerCluster smallVolume).toNat)).flatten)] :=
  get_copies_first_segment_file rootFileImage smallVolume (List.replicate 255 0)
    (ascii "note.txt/extra") (ascii "note.txt") _ 2 3 10 1 readGeometry_rootFileImage
    (by decide) (by decide) (by decide) rootFileImage_fileAt
    (fun fuel hf => getFile_of_chain smallVolume rootFileImage (wrapI32 3) 10 1 (by decide)
      (by decide) (by decide) (by decide)
      (by
        intro i hi
        have hi0 : i = 0 := by omega
        subst hi0
        exact ⟨3, rfl, by decide⟩)
      fuel hf)

/-- From the second slot on the search of `allocationBitMap` does not advance: the
slot is left with a seek of `32 - 33` bytes, back to its start. -/
theorem allocationBitMapLoop_stuck (g : Geometry) (img : Image) (pos cur : Int)
    (h0 : 0 ≤ pos) (h1 : pos < img.size) (ht : img.byte pos % 256 ≠ 129)
    (hB : bytesPerCluster g ≠ 32) :
    ∀ fuel : Nat, allocationBitMapLoop g img fuel pos cur 32 = none := by
  intro fuel
  induction fuel with
  | zero => rfl
  | succ f ih =>
    rw [allocationBitMapLoop, read8_of_lt img pos h0 h1]
    simp only []
    rw [if_neg ht, if_neg (by omega), if_pos (by omega)]
    rw [show pos + 1 + (32 - (32 + 1)) = pos by ring,
      show (32 : Int) + 1 + (32 - (32 + 1)) = 32 by ring]
    exact ih

set_option maxRecDepth 1000000 in
/-- With the bitmap entry in the third slot of the root directory the search never
reaches it. -/
theorem allocationBitMap_late_entry (fuel : Nat) :
    allocationBitMap smallVolume lateBitmapImage fuel 2 0 = none := by
  have hstart : allocationBitMapStart smallVolume 2 0 = 1024 := by decide
  unfold allocationBitMap
  rw [hstart]
  cases fuel with
  | zero => rfl
  | succ f =>
    have hstep : allocationBitMapLoop smallVolume lateBitmapImage (f + 1) 1024 2 0
        = allocationBitMapLoop smallVolume lateBitmapImage f 1056 2 32 := by
      rw [allocationBitMapLoop, read8_of_lt lateBitmapImage 1024 (by decide) (by decide)]
      simp only []
      rw [if_neg (by decide), if_neg (by decide), if_pos (by decide)]
      rfl
    rw [hstep, allocationBitMapLoop_stuck smallVolume lateBitmapImage 1056 2 (by decide)
      (by decide) (by decide) (by decide) f]

/-! ## The wrapped offset -/

/-- C22: for every geometry and every cluster index `c ≥ 2` (an `int`) whose signed
product `(c - 2) * sectorsPerCluster` fits in a 32-bit `int` (so that the product is
computed exactly), `findOffsetToCluster c` is the value of the sum and the product
taken in 32-bit unsigned arithmetic, lies in `[0, 2 ^ 32)` and equals
`((clstHeapOffset + (c - 2) * sectorsPerCluster) * bytesPerSector) mod 2 ^ 32`; when
the true byte offset is `2 ^ 32` or more, the returned offset is a smaller, wrapped
one. -/
theorem findOffsetToCluster_wraps (g : Geometry) (c : Int) (hc : 2 ≤ c)
    (hint : c < 2147483648)
    (hfit : -2147483648 ≤ (c - 2) * g.sectorsPerCluster ∧
      (c - 2) * g.sectorsPerCluster < 2147483648) :
    wrapI32 (wrapI32 (c - 2) * g.sectorsPerCluster) = (c - 2) * g.sectorsPerCluster ∧
    findOffsetToCluster g c =
      wrapU32 (wrapU32 (g.clstHeapOffset + wrapU32 ((c - 2) * g.sectorsPerCluster))
        * wrapU32 g.bytesPerSector) ∧
    (0 ≤ findOffsetToCluster g c ∧ findOffsetToCluster g c < 4294967296) ∧
    findOffsetToCluster g c =
      ((g.clstHeapOffset + (c - 2) * g.sectorsPerCluster) * g.bytesPerSector) % 4294967296 ∧
    (4294967296 ≤ (g.clstHeapOffset + (c - 2) * g.sectorsPerCluster) * g.bytesPerSector →
      findOffsetToCluster g c <
        (g.clstHeapOffset + (c - 2) * g.sectorsPerCluster) * g.bytesPerSector) := by
  have hprod : wrapI32 (wrapI32 (c - 2) * g.sectorsPerCluster)
      = (c - 2) * g.sectorsPerCluster := by
    rw [wrapI32_of_range (c - 2) (by omega) (by omega)]
    exact wrapI32_of_range _ hfit.1 hfit.2
  refine ⟨hprod, ?_, ⟨wrapU32_nonneg _, wrapU32_lt _⟩, findOffsetToCluster_eq_mod g c, ?_⟩
  · unfold findOffsetToCluster
    rw [hprod]
  · intro hbig
    exact lt_of_lt_of_le (wrapU32_lt _) hbig

theorem findOffsetToCluster_wraps_witness :
    wrapI32 (wrapI32 (1048578 - 2) * bigVolume.sectorsPerCluster)
      = (1048578 - 2) * bigVolume.sectorsPerCluster ∧
    findOffsetToCluster bigVolume 1048578 =
      wrapU32 (wrapU32 (bigVolume.clstHeapOffset
          + wrapU32 ((1048578 - 2) * bigVolume.sectorsPerCluster))
        * wrapU32 bigVolume.bytesPerSector) ∧
    (0 ≤ findOffsetToCluster bigVolume 1048578 ∧
      findOffsetToCluster bigVolume 1048578 < 4294967296) ∧
    findOffsetToCluster bigVolume 1048578 =
      ((bigVolume.clstHeapOffset + (1048578 - 2) * bigVolume.sectorsPerCluster)
        * bigVolume.bytesPerSector) % 4294967296 ∧
    (4294967296 ≤ (bigVolume.clstHeapOffset + (1048578 - 2) * bigVolume.sectorsPerCluster)
        * bigVolume.bytesPerSector →
      findOffsetToCluster bigVolume 1048578 <
        (bigVolume.clstHeapOffset + (1048578 - 2) * bigVolume.sectorsPerCluster)
          * bigVolume.bytesPerSector) :=
  findOffsetToCluster_wraps bigVolume 1048578 (by decide) (by decide) (by decide)

/-! ## The path segment of `get` -/

/-- Cutting a list at every `/` gives the bytes before the first `/`, followed by
the pieces of what stands behind that `/`. -/
theorem splitOn_slash (l : List Int) :
    l.splitOn 47 = l.takeWhile (fun b => b != 47) ::
      (match l.dropWhile (fun b => b != 47) with
       | [] => []
       | _ :: r => r.splitOn 47) := by
  induction l with
  | nil => rfl
  | cons x xs ih =>
    unfold List.splitOn at ih ⊢
    rw [List.splitOnP_cons]
    by_cases hx : x = 47
    · subst hx
      simp
    · have h1 : (x == 47) = false := by simpa using hx
      have h2 : (x != 47) = true := by simpa using hx
      rw [h1, List.takeWhile_cons, List.dropWhile_cons, h2, ih]
      simp

theorem pathPieces_nil : pathPieces [] = [] := by
  decide

theorem pathPieces_slash (s : List Int) : pathPieces (47 :: s) = pathPieces s := by
  unfold pathPieces List.splitOn
  rw [List.splitOnP_cons]
  simp

theorem pathPieces_dropWhile (s : List Int) :
    pathPieces (s.dropWhile (fun b => b == 47)) = pathPieces s := by
  induction s with
  | nil => rfl
  | cons x xs ih =>
    by_cases hx : x = 47
    · subst hx
      rw [pathPieces_slash, List.dropWhile_cons]
      simpa using ih
    · have h1 : (x == 47) = false := by simpa using hx
      rw [List.dropWhile_cons, h1]
      simp

/-- A path that starts with a byte other than `/` has the bytes up to the next `/`
as its first piece. -/
theorem pathPieces_cons (b : Int) (rest : List Int) (hb : b ≠ 47) :
    pathPieces (b :: rest) = (b :: rest).takeWhile (fun b => b != 47) ::
      pathPieces (((b :: rest).dropWhile (fun b => b != 47)).drop 1) := by
  have h2 : (b != 47) = true := by simpa using hb
  unfold pathPieces
  rw [splitOn_slash (b :: rest)]
  rw [List.filter_cons_of_pos (by rw [List.takeWhile_cons, h2]; rfl)]
  congr 1
  cases hd : (b :: rest).dropWhile (fun b => b != 47) with
  | nil => rfl
  | cons y r => rfl

theorem strtok_none (s : List Int) (h : strtok s = none) : pathPieces s = [] := by
  unfold strtok at h
  rw [← pathPieces_dropWhile]
  cases hd : s.dropWhile (fun b => b == 47) with
  | nil => exact pathPieces_nil
  | cons b rest => rw [hd] at h; simp at h

theorem strtok_some (s tok rest : List Int) (h : strtok s = some (tok, rest)) :
    tok ≠ [] ∧ (47 : Int) ∉ tok ∧ pathPieces s = tok :: pathPieces rest := by
  unfold strtok at h
  cases hd : s.dropWhile (fun b => b == 47) with
  | nil => rw [hd] at h; simp at h
  | cons b r =>
    rw [hd] at h
    simp only [Option.some.injEq, Prod.mk.injEq] at h
    have hb : b ≠ 47 := by
      have := List.head_dropWhile_not (fun b => b == 47) s (by rw [hd]; simp)
      simpa [hd] using this
    have h2 : (b != 47) = true := by simpa using hb
    refine ⟨?_, ?_, ?_⟩
    · rw [← h.1, List.takeWhile_cons, h2]; simp
    · rw [← h.1]
      intro hmem
      have := List.mem_takeWhile_imp hmem
      simp at this
    · rw [← pathPieces_dropWhile, hd, pathPieces_cons b r hb, h.1, h.2]

theorem currentLookUp_getElem? (N : Nat) (s : List Int) :
    currentLookUp N s = (pathPieces s)[N]? := by
  induction N generalizing s with
  | zero =>
    unfold currentLookUp
    cases h : strtok s with
    | none => rw [strtok_none s h]; rfl
    | some r =>
      obtain ⟨tok, rest⟩ := r
      rw [(strtok_some s tok rest h).2.2]; simp
  | succ n ih =>
    unfold currentLookUp
    cases h : strtok s with
    | none => rw [strtok_none s h]; rfl
    | some r =>
      obtain ⟨tok, rest⟩ := r
      rw [(strtok_some s tok rest h).2.2]
      simp only [List.getElem?_cons_succ]
      exact ih rest

theorem currentLookUp_token (N : Nat) (s t : List Int) (h : currentLookUp N s = some t) :
    t ≠ [] ∧ (47 : Int) ∉ t := by
  induction N generalizing s with
  | zero =>
    unfold currentLookUp at h
    cases hs : strtok s with
    | none => rw [hs] at h; simp at h
    | some r =>
      obtain ⟨tok, rest⟩ := r
      rw [hs] at h
      simp only [Option.map_some', Option.some.injEq] at h
      subst h
      exact ⟨(strtok_some s tok rest hs).1, (strtok_some s tok rest hs).2.1⟩
  | succ n ih =>
    unfold currentLookUp at h
    cases hs : strtok s with
    | none => rw [hs] at h; simp at h
    | some r =>
      obtain ⟨tok, rest⟩ := r
      rw [hs] at h
      exact ih rest h

/-- C21: for every path and every depth `N`, the segment that `get` compares against
at recursion depth `N` (the result of `strtok` on the whole path followed by `N`
further calls) is element `N` of the list of the non-empty `/`-separated pieces of
the path; it is absent (`NULL`) exactly when the path has `N` or fewer such pieces;
a segment is never empty and holds no `/`, so leading, trailing and repeated slashes
create no empty segment. -/
theorem currentLookUp_eq_pieces (path : List Int) (N : Nat) :
    currentLookUp N path = (pathPieces path)[N]? ∧
    (currentLookUp N path = none ↔ (pathPieces path).length ≤ N) ∧
    (∀ t, currentLookUp N path = some t → t ≠ [] ∧ (47 : Int) ∉ t) := by
  refine ⟨currentLookUp_getElem? N path, ?_, fun t h => currentLookUp_token N path t h⟩
  rw [currentLookUp_getElem?]
  exact List.getElem?_eq_none_iff

theorem currentLookUp_eq_pieces_witness :
    pathPieces (ascii "//docs///note.txt/") = [ascii "docs", ascii "note.txt"] ∧
    currentLookUp 0 (ascii "//docs///note.txt/") = some (ascii "docs") ∧
    currentLookUp 1 (ascii "//docs///note.txt/") = some (ascii "note.txt") ∧
    currentLookUp 2 (ascii "//docs///note.txt/") = none :=
  ⟨by decide,
   (currentLookUp_eq_pieces (ascii "//docs///note.txt/") 0).1.trans (by decide),
   (currentLookUp_eq_pieces (ascii "//docs///note.txt/") 1).1.trans (by decide),
   (currentLookUp_eq_pieces (ascii "//docs///note.txt/") 2).2.1.mpr (by decide)⟩

/-! ## The decoded fields behind an overrun of the name array -/

end ExFAT
